import Mathlib

/-!
# Verification of the knowledgebase RAG service core

Shallow embedding, in Lean 4, of the core data model and operations of the
Geeksfino/knowledgebase repository (TypeScript), together with theorems that
settle the frozen specification claims.

Conventions of the embedding:
* JavaScript numbers are modelled as `ℚ` (scores, rates, timestamps) or `Nat`
  (counts, limits) — exact arithmetic in place of IEEE floats.
* JavaScript strings are Lean `String`s; `.length` is taken as the number of
  codepoints (the sources only exercise BMP text, where this agrees with
  JS UTF-16 lengths).
* `Map` objects are modelled as insertion-ordered association lists, with
  in-place update on existing keys and append on fresh keys, matching the
  JS `Map` iteration-order semantics.
* Exceptions are modelled with `Except`/`Option`; external collaborators
  (txtai, the LLM provider) are modelled as oracle inputs supplied to the
  embedded functions.
-/

namespace Knowledgebase

/-! ## Token counter (`src/src/utils/token-counter.ts`)

`countTokens` counts CJK codepoints (U+4E00–U+9FFF, U+3400–U+4DBF,
U+F900–U+FAFF) and non-CJK characters separately and estimates
`⌈cjk / 1.5⌉ + ⌈nonCjk / 4⌉` tokens.  In `Nat` arithmetic
`⌈c / 1.5⌉ = ⌈2c/3⌉ = (2c + 2) / 3` and `⌈n / 4⌉ = (n + 3) / 4`. -/

/-- Is a character in one of the three CJK ranges of the `cjkPattern` regex? -/
def isCJK (c : Char) : Bool :=
  (0x4e00 ≤ c.toNat && c.toNat ≤ 0x9fff) ||
  (0x3400 ≤ c.toNat && c.toNat ≤ 0x4dbf) ||
  (0xf900 ≤ c.toNat && c.toNat ≤ 0xfaff)

/-- `countTokens` from `token-counter.ts`: CJK chars count ~1.5 chars/token,
other chars ~4 chars/token, each rounded up. -/
def countTokens (text : String) : Nat :=
  let cjkCount := (text.data.filter isCJK).length
  let nonCjkLength := text.data.length - cjkCount
  (2 * cjkCount + 2) / 3 + (nonCjkLength + 3) / 4

/-- The character limit computed inside `truncateToTokenBudget`:
`Math.floor(text.length * (maxTokens / currentTokens) * 0.95)`. -/
def truncCharLimit (text : String) (maxTokens : Nat) : Nat :=
  let currentTokens := countTokens text
  let ratio : ℚ := (maxTokens : ℚ) / (currentTokens : ℚ)
  (⌊(text.data.length : ℚ) * ratio * (95 / 100 : ℚ)⌋).toNat

/-- `truncateToTokenBudget` from `token-counter.ts`. -/
def truncateToTokenBudget (text : String) (maxTokens : Nat) : String :=
  if countTokens text ≤ maxTokens then text
  else String.mk (text.data.take (truncCharLimit text maxTokens)) ++ "..."

/-- A text of 6 CJK characters followed by 74 ASCII characters: the CJK-dense
head makes the proportionally computed character limit overshoot the token
budget. -/
def truncCexText : String := String.mk (List.replicate 6 '中' ++ List.replicate 74 'a')

/-! ## JavaScript truthiness helpers

The handlers use `a || b` chains over possibly-undefined strings and numbers.
An absent value (`undefined`) is `none`; the empty string and the number `0`
are falsy. -/

/-- JS `a || b` for two possibly-undefined strings. -/
def jsOrStrOpt (a b : Option String) : Option String :=
  match a with
  | some s => if s = "" then b else some s
  | none => b

/-- JS `a || d` for a possibly-undefined string with a string default. -/
def jsOrStrDefault (a : Option String) (d : String) : String :=
  match a with
  | some s => if s = "" then d else s
  | none => d

/-- JS `a || d` for a possibly-undefined number with a number default. -/
def jsOrNumDefault (a : Option ℚ) (d : ℚ) : ℚ :=
  match a with
  | some x => if x = 0 then d else x
  | none => d

/-! ## Metadata store (`src/src/services/document-store.ts`)

An in-memory `Map<string, StoredDocument>` modelled as an insertion-ordered
association list. -/

/-- Document status from `StoredDocument`. -/
inductive DocStatus
  | indexed
  | processing
  | failed
deriving DecidableEq, Repr

/-- Free-form `Record<string, unknown>` metadata, modelled as a string map. -/
abbrev Meta := List (String × String)

/-- `StoredDocument` from `document-store.ts` (with the `content_hash` field
carried by the store variant used by `documents.ts`). -/
structure StoredDocument where
  document_id : String
  title : String
  category : Option String := none
  description : Option String := none
  status : DocStatus
  chunks_count : Nat
  created_at : String
  updated_at : String
  media_type : Option String := none
  media_url : Option String := none
  metadata : Option Meta := none
  content_hash : Option String := none
deriving DecidableEq, Repr

/-- Insertion-ordered map update: replace in place if the key exists,
append otherwise (JS `Map.set` semantics). -/
def mapSet {α : Type} (l : List (String × α)) (k : String) (v : α) : List (String × α) :=
  if (List.lookup k l).isSome then
    l.map (fun p => if p.1 = k then (k, v) else p)
  else l ++ [(k, v)]

/-- The in-memory document store: `private documents: Map<string, StoredDocument>`. -/
structure DocumentStore where
  documents : List (String × StoredDocument)
deriving DecidableEq, Repr

/-- `DocumentStore.get`. -/
def DocumentStore.get (s : DocumentStore) (documentId : String) : Option StoredDocument :=
  List.lookup documentId s.documents

/-- `DocumentStore.upsert`: insert or replace, setting `updated_at` to now. -/
def DocumentStore.upsert (s : DocumentStore) (doc : StoredDocument) (now : String) :
    DocumentStore :=
  ⟨mapSet s.documents doc.document_id { doc with updated_at := now }⟩

/-- `DocumentStore.count`: the number of stored documents (`Map.size`). -/
def DocumentStore.count (s : DocumentStore) : Nat :=
  s.documents.length

/-- Modelled from the spec: `find_by_content_hash(hash)` of the metadata store
(§4.7) — the store variant with content-hash lookup called by
`handleUploadDocument` is not present under `src/`; per the spec it is a
lookup of the document whose `content_hash` equals the given hash (unique
across non-failed documents). -/
def DocumentStore.findByContentHash (s : DocumentStore) (h : String) :
    Option StoredDocument :=
  (s.documents.map Prod.snd).find? (fun d => d.content_hash = some h)

/-! ## Search handler (`src/src/handlers/search.ts`) -/

/-- `SearchResultMetadata` from `search.ts`. -/
structure SearchResultMetadata where
  document_title : Option String := none
  media_type : Option String := none
  media_url : Option String := none
  category : Option String := none
deriving DecidableEq, Repr

/-- A raw search result `{id, score, text, metadata?}` as returned by
`txtaiService.hybridSearch`. -/
structure SearchResult where
  id : String
  score : ℚ
  text : String
  metadata : Option SearchResultMetadata := none
deriving DecidableEq, Repr

/-- `ProviderChunk` as assembled by `handleSearch`. -/
structure ProviderChunk where
  chunk_id : String
  content : String
  score : ℚ
  document_id : String
  document_title : String
  media_type : String
  media_url : Option String
  metadata : SearchResultMetadata
deriving DecidableEq, Repr

/-- Chunk assembly inside the `handleSearch` result loop.  The
`extractTitleFromContent` regex helper is abstracted as the `extractTitle`
parameter (no claim depends on it). -/
def buildChunk (store : DocumentStore) (extractTitle : String → String)
    (r : SearchResult) : ProviderChunk :=
  let chunkIdHead := (r.id.splitOn "_chunk_").headD r.id
  let documentId := if chunkIdHead = "" then r.id else chunkIdHead
  let doc := store.get documentId
  let metadata := r.metadata.getD {}
  let title0 := jsOrStrOpt (doc.map (·.title)) metadata.document_title
  let documentTitle :=
    match title0 with
    | none => extractTitle r.text
    | some t => if t = "" ∨ t = "Unknown" then extractTitle r.text else t
  let mediaType := jsOrStrDefault (jsOrStrOpt metadata.media_type (doc.bind (·.media_type))) "text"
  let mediaUrl :=
    match jsOrStrOpt metadata.media_url (doc.bind (·.media_url)) with
    | some "" => none
    | u => u
  { chunk_id := r.id
    content := r.text
    score := r.score
    document_id := documentId
    document_title := documentTitle
    media_type := mediaType
    media_url := mediaUrl
    metadata := { metadata with category := jsOrStrOpt (doc.bind (·.category)) metadata.category } }

/-- The token-budget guard of the result loop:
`request.token_budget && totalTokens + chunkTokens > request.token_budget`
(`0` is falsy, so a zero budget disables the check). -/
def tokenBudgetBreak (budget : Option Nat) (newTotal : Nat) : Bool :=
  match budget with
  | some b => b != 0 && b < newTotal
  | none => false

/-- The `for (const result of results)` loop of `handleSearch`: skip low-score
results, stop (without appending) when the budget would be exceeded, stop
after appending when the limit is reached. -/
def searchSelectLoop (minScore : ℚ) (limit : Nat) (budget : Option Nat)
    (store : DocumentStore) (extractTitle : String → String) :
    List SearchResult → List ProviderChunk → Nat → List ProviderChunk × Nat
  | [], chunks, total => (chunks, total)
  | r :: rest, chunks, total =>
    if r.score < minScore then
      searchSelectLoop minScore limit budget store extractTitle rest chunks total
    else
      let chunk := buildChunk store extractTitle r
      let chunkTokens := countTokens chunk.content
      if tokenBudgetBreak budget (total + chunkTokens) then (chunks, total)
      else
        let chunks' := chunks ++ [chunk]
        let total' := total + chunkTokens
        if limit ≤ chunks'.length then (chunks', total')
        else searchSelectLoop minScore limit budget store extractTitle rest chunks' total'

/-- A `ProviderSearchResponse` (the fields the core populates). -/
structure ProviderSearchResponse where
  provider_name : String
  chunks : List ProviderChunk
  total_tokens : Nat
  search_mode : String
  results_count : Nat
  min_score : ℚ
deriving DecidableEq, Repr

/-- Response assembly of `handleSearch`, given the raw results of the
(single- or multi-query) backend search. -/
def handleSearchResponse (providerName : String) (minScore : ℚ) (limit : Nat)
    (budget : Option Nat) (store : DocumentStore) (extractTitle : String → String)
    (results : List SearchResult) : ProviderSearchResponse :=
  let p := searchSelectLoop minScore limit budget store extractTitle results [] 0
  { provider_name := providerName
    chunks := p.1
    total_tokens := p.2
    search_mode := "hybrid"
    results_count := p.1.length
    min_score := minScore }

/-- The raw result used in the C3 witness and counterexample inputs. -/
def cexResult : SearchResult :=
  { id := "doc1_chunk_0", score := 1, text := "hello" }

/-! ## Token-bucket rate limiter (`src/src/services/rate-limiter.ts`)

Timestamps are in milliseconds (`Date.now()`), the refill rate is per second,
hence the `/ 1000` in `refill`.  State and configuration are merged into one
structure, mirroring the class fields. -/

/-- The `TokenBucketRateLimiter` class fields (statistics counters omitted). -/
structure TokenBucketRateLimiter where
  maxTokens : ℚ
  refillRate : ℚ
  tokens : ℚ
  lastRefill : ℚ
deriving DecidableEq, Repr

/-- `private refill()`: add `elapsed · refillRate` tokens (capped at
`maxTokens`) and advance `lastRefill`, but only when at least one whole token
would be added. -/
def TokenBucketRateLimiter.refill (s : TokenBucketRateLimiter) (now : ℚ) :
    TokenBucketRateLimiter :=
  let elapsed := (now - s.lastRefill) / 1000
  let tokensToAdd := elapsed * s.refillRate
  if 1 ≤ tokensToAdd then
    { s with tokens := min (s.tokens + tokensToAdd) s.maxTokens, lastRefill := now }
  else s

/-- `tryAcquire()`: refill, then succeed (consuming one token) iff at least
one token is available. -/
def TokenBucketRateLimiter.tryAcquire (s : TokenBucketRateLimiter) (now : ℚ) :
    Bool × TokenBucketRateLimiter :=
  let s' := s.refill now
  if 1 ≤ s'.tokens then (true, { s' with tokens := s'.tokens - 1 })
  else (false, s')

/-- A run of admission attempts at the given (nondecreasing) timestamps,
returning the number of granted attempts and the final limiter state. -/
def runAttempts : TokenBucketRateLimiter → List ℚ → Nat × TokenBucketRateLimiter
  | s, [] => (0, s)
  | s, t :: ts =>
    let p := s.tryAcquire t
    let q := runAttempts p.2 ts
    ((if p.1 then 1 else 0) + q.1, q.2)

/-! ## Request queue (`src/src/services/rate-limiter.ts`, `RequestQueue`)

Pending tasks are opaque (`Unit`); `submit` either rejects (queue full) or
enqueues and synchronously calls `process()`; a task completion decrements
`running` and calls `process()` again. -/

/-- The `RequestQueue` class fields (statistics counters omitted). -/
structure RequestQueue where
  concurrency : Nat
  maxQueueSize : Nat
  running : Nat
  queue : List Unit
deriving DecidableEq, Repr

/-- `private process()`: start the next pending task unless at the
concurrency cap or the backlog is empty. -/
def RequestQueue.process (s : RequestQueue) : RequestQueue :=
  if s.concurrency ≤ s.running ∨ s.queue = [] then s
  else { s with running := s.running + 1, queue := s.queue.tail }

/-- `submit(fn)`: reject immediately when
`this.queue.length >= this.maxQueueSize`, else enqueue and `process()`.
The boolean is `true` iff the submission was accepted. -/
def RequestQueue.submit (s : RequestQueue) : Bool × RequestQueue :=
  if s.maxQueueSize ≤ s.queue.length then (false, s)
  else (true, RequestQueue.process { s with queue := s.queue ++ [()] })

/-- Completion of a running task (`finally { this.running--; this.process() }`). -/
def RequestQueue.complete (s : RequestQueue) : RequestQueue :=
  if s.running = 0 then s
  else RequestQueue.process { s with running := s.running - 1 }

/-- Observable queue events: a submission attempt or a task completion. -/
inductive QueueEvent
  | submit
  | complete
deriving DecidableEq, Repr

/-- One event transition. -/
def RequestQueue.step (s : RequestQueue) : QueueEvent → RequestQueue
  | .submit => s.submit.2
  | .complete => s.complete

/-- A queue run from the freshly constructed state. -/
def queueRun (concurrency maxQueueSize : Nat) (events : List QueueEvent) : RequestQueue :=
  events.foldl RequestQueue.step ⟨concurrency, maxQueueSize, 0, []⟩

/-! ## Chat option resolution (`src/unnamed/part_009`, `handleChatStream` and
`handleChat`)

Both entry points resolve request options with JS `||` against the configured
defaults and treat `include_sources` as `options?.include_sources !== false`. -/

/-- The `options` object of a `ChatRequest`. -/
structure ChatOptions where
  search_limit : Option ℚ := none
  temperature : Option ℚ := none
  max_tokens : Option ℚ := none
  include_sources : Option Bool := none
deriving DecidableEq, Repr

/-- The chat configuration defaults consumed by both entry points. -/
structure ChatConfig where
  defaultSearchLimit : ℚ
  defaultTemperature : ℚ
  defaultMaxTokens : ℚ
deriving DecidableEq, Repr

/-- The resolved option values used by the handler bodies. -/
structure ResolvedChatOptions where
  searchLimit : ℚ
  temperature : ℚ
  maxTokens : ℚ
  includeSources : Bool
deriving DecidableEq, Repr

/-- Option resolution in `handleChatStream` (lines 148–151 of the source):
`request.options?.search_limit || config.chat.defaultSearchLimit` etc., and
`request.options?.include_sources !== false`. -/
def resolveChatStreamOptions (options : Option ChatOptions) (cfg : ChatConfig) :
    ResolvedChatOptions :=
  { searchLimit := jsOrNumDefault (options.bind (·.search_limit)) cfg.defaultSearchLimit
    temperature := jsOrNumDefault (options.bind (·.temperature)) cfg.defaultTemperature
    maxTokens := jsOrNumDefault (options.bind (·.max_tokens)) cfg.defaultMaxTokens
    includeSources :=
      match options.bind (·.include_sources) with
      | some false => false
      | _ => true }

/-- Option resolution in the synchronous `handleChat` (lines 362–365), textually
identical to the streaming variant. -/
def resolveChatSyncOptions (options : Option ChatOptions) (cfg : ChatConfig) :
    ResolvedChatOptions :=
  { searchLimit := jsOrNumDefault (options.bind (·.search_limit)) cfg.defaultSearchLimit
    temperature := jsOrNumDefault (options.bind (·.temperature)) cfg.defaultTemperature
    maxTokens := jsOrNumDefault (options.bind (·.max_tokens)) cfg.defaultMaxTokens
    includeSources :=
      match options.bind (·.include_sources) with
      | some false => false
      | _ => true }

/-- The LLM request assembled by the chat handlers (`{system_prompt,
user_prompt, temperature, max_tokens}`). -/
structure LLMInferRequest where
  system_prompt : String
  user_prompt : String
  temperature : ℚ
  max_tokens : ℚ
deriving DecidableEq, Repr

/-- Request construction in steps 7/8 of the chat handlers: the resolved
temperature and max_tokens are passed to the provider verbatim. -/
def buildChatLLMRequest (systemPrompt userPrompt : String)
    (resolved : ResolvedChatOptions) : LLMInferRequest :=
  { system_prompt := systemPrompt
    user_prompt := userPrompt
    temperature := resolved.temperature
    max_tokens := resolved.maxTokens }

/-! ## Query processor (`QueryProcessor` in `src/src/services/rate-limiter.ts`,
after the file separator)

The two LLM calls (expansion and rewrite) are abstracted as oracles in an
environment: a call either throws (`Except.error`, covering queue rejections
and provider errors), yields nothing usable (`Option.none`, covering empty
response text and JSON-parse failures), or yields a parsed result.  The rate
limiter's `tryAcquire` outcomes are booleans in the environment. -/

/-- `method: 'llm' | 'original'`. -/
inductive QueryMethod
  | llm
  | original
deriving DecidableEq, Repr

/-- `QueryProcessingResult`. -/
structure QueryProcessingResult where
  processedQuery : String
  method : QueryMethod
  expandedQueries : Option (List String) := none
  queryIntent : Option String := none
deriving DecidableEq, Repr

/-- Oracle environment for one `processQuery` invocation. -/
structure QueryProcessorEnv where
  llmEnabled : Bool
  expansionEnabled : Bool
  maxExpandedQueries : Nat
  providerAvailable : Bool
  expandAcquire : Bool
  expandCall : Except String (Option (List String × Option String))
  rewriteAcquire : Bool
  rewriteCall : Except String (Option String)

/-- `private expandQueryWithLLM`: skip (return `null`) when the rate limiter
rejects; otherwise the queue-submitted LLM call either throws or yields the
defensively parsed `{expandedQueries, queryIntent}` (or `null`). -/
def expandQueryWithLLM (env : QueryProcessorEnv) :
    Except String (Option (List String × Option String)) :=
  if !env.expandAcquire then Except.ok none
  else env.expandCall

/-- `private rewriteWithLLM`: return the query itself when the rate limiter
rejects; otherwise the call either throws, or yields the trimmed response,
kept only when at least 2 characters long. -/
def rewriteWithLLM (env : QueryProcessorEnv) (query : String) : Except String String :=
  if !env.rewriteAcquire then Except.ok query
  else
    match env.rewriteCall with
    | Except.error e => Except.error e
    | Except.ok none => Except.ok query
    | Except.ok (some t) => Except.ok (if 2 ≤ t.length then t else query)

/-- `QueryProcessor.processQuery`, with the `try`/`catch` blocks translated to
`Except` handling: expansion failures fall through to rewriting, rewrite
failures fall through to the original query. -/
def QueryProcessor.processQuery (env : QueryProcessorEnv) (originalQuery : String) :
    Except String QueryProcessingResult :=
  if originalQuery.length < 5 then
    Except.ok { processedQuery := originalQuery, method := QueryMethod.original }
  else if env.llmEnabled && env.providerAvailable then
    let step1 : Option QueryProcessingResult :=
      if env.expansionEnabled then
        match expandQueryWithLLM env with
        | Except.error _ => none
        | Except.ok none => none
        | Except.ok (some (qs, intent)) =>
          if 0 < qs.length then
            let queries := qs.take env.maxExpandedQueries
            let queries :=
              if originalQuery ∈ queries then queries else queries ++ [originalQuery]
            some { processedQuery := queries.headD ""
                   method := QueryMethod.llm
                   expandedQueries := some queries
                   queryIntent := intent }
          else none
      else none
    match step1 with
    | some r => Except.ok r
    | none =>
      match rewriteWithLLM env originalQuery with
      | Except.error _ =>
        Except.ok { processedQuery := originalQuery, method := QueryMethod.original }
      | Except.ok rewritten =>
        if rewritten ≠ "" ∧ rewritten ≠ originalQuery then
          Except.ok { processedQuery := rewritten, method := QueryMethod.llm }
        else
          Except.ok { processedQuery := originalQuery, method := QueryMethod.original }
  else Except.ok { processedQuery := originalQuery, method := QueryMethod.original }

/-! ## Streaming chat handler (`src/unnamed/part_009`, `handleChatStream`)

The stream body (after rate-limit admission) is modelled as a pure function
from an environment — the outcome of query processing + search, the
`include_sources` flag, and the LLM stream chunks — to the emitted AG-UI
event sequence.  Any exception thrown before `TEXT_MESSAGE_START` (query
processing, search) is a `.error` search outcome; provider-acquisition or
mid-stream failures are `error` chunks of the LLM stream. -/

/-- The AG-UI event tags emitted by `handleChatStream` (correlation IDs
omitted; `CUSTOM` events are distinguished by their `name`). -/
inductive ChatEv
  | runStarted
  | customSources
  | textMessageStart
  | textMessageChunk (delta : String)
  | textMessageEnd
  | customUsage
  | runFinished
  | runError (msg : String)
deriving DecidableEq, Repr

/-- `TokenUsage` captured from a `done` stream chunk. -/
structure ChatTokenUsage where
  prompt_tokens : Nat
  completion_tokens : Nat
  total_tokens : Nat
deriving DecidableEq, Repr

/-- One chunk of `provider.inferStream`. -/
inductive LLMStreamChunk
  | content (s : String)
  | done (usage : Option ChatTokenUsage)
  | error (msg : String)
deriving DecidableEq, Repr

/-- The `for await` loop over the LLM stream: emit a `TEXT_MESSAGE_CHUNK` per
non-empty content delta, remember the latest `done` usage, and stop with the
thrown message on an `error` chunk (`chunk.error || 'LLM stream error'`). -/
def runLLMLoop : List LLMStreamChunk → Option ChatTokenUsage →
    List ChatEv × Option ChatTokenUsage × Option String
  | [], u => ([], u, none)
  | LLMStreamChunk.content s :: rest, u =>
    if s ≠ "" then
      let r := runLLMLoop rest u
      (ChatEv.textMessageChunk s :: r.1, r.2)
    else runLLMLoop rest u
  | LLMStreamChunk.done u' :: rest, _ => runLLMLoop rest u'
  | LLMStreamChunk.error m :: _, u => ([], u, some (if m ≠ "" then m else "LLM stream error"))

/-- The environment of one stream run. -/
structure ChatStreamEnv where
  includeSources : Bool
  searchOutcome : Except String (List ProviderChunk)
  llmChunks : List LLMStreamChunk

/-- The event sequence enqueued by the `start(controller)` body of
`handleChatStream`: `RUN_STARTED`, then on success of query processing and
search an optional `knowledge_sources` CUSTOM event, `TEXT_MESSAGE_START`,
the LLM loop's chunk events, and — unless the loop threw — `TEXT_MESSAGE_END`,
an optional `token_usage` CUSTOM event and `RUN_FINISHED`; any caught
exception appends a single `RUN_ERROR`. -/
def emitChatStream (env : ChatStreamEnv) : List ChatEv :=
  ChatEv.runStarted ::
    match env.searchOutcome with
    | Except.error e => [ChatEv.runError e]
    | Except.ok chunks =>
      (if env.includeSources ∧ 0 < chunks.length then [ChatEv.customSources] else [])
        ++ [ChatEv.textMessageStart]
        ++ (let r := runLLMLoop env.llmChunks none
            r.1 ++
              match r.2.2 with
              | some m => [ChatEv.runError m]
              | none =>
                [ChatEv.textMessageEnd]
                  ++ (if (r.2.1).isSome then [ChatEv.customUsage] else [])
                  ++ [ChatEv.runFinished])

/-- A complete successful event sequence: `RUN_STARTED (CUSTOM_sources)?
TEXT_MESSAGE_START TEXT_MESSAGE_CHUNK* TEXT_MESSAGE_END (CUSTOM_usage)?
RUN_FINISHED`. -/
def okChatSeq (src : Bool) (deltas : List String) (usage : Bool) : List ChatEv :=
  ChatEv.runStarted ::
    (if src then [ChatEv.customSources] else [])
      ++ [ChatEv.textMessageStart]
      ++ deltas.map ChatEv.textMessageChunk
      ++ [ChatEv.textMessageEnd]
      ++ (if usage then [ChatEv.customUsage] else [])
      ++ [ChatEv.runFinished]

/-- Is an event a run-terminating event? -/
def isTerminalEv : ChatEv → Bool
  | ChatEv.runFinished => true
  | ChatEv.runError _ => true
  | _ => false

/-! ## Document upload handler (`src/unnamed/part_008`, `handleUploadDocument`)

`calculateContentHash` (SHA-256), `generateDocumentId` (random) and the
chunking+indexing pipeline are oracles in an ingestion environment; the
dedup flow over the metadata store is embedded concretely. -/

/-- `DocumentUploadRequest`. -/
structure DocumentUploadRequest where
  title : String
  content : String
  category : Option String := none
  description : Option String := none
  metadata : Option Meta := none
deriving DecidableEq, Repr

/-- `DocumentUploadResponse`. -/
structure DocumentUploadResponse where
  document_id : String
  status : DocStatus
  chunks_count : Option Nat := none
  message : String
deriving DecidableEq, Repr

/-- Oracle environment for one `handleUploadDocument` call. -/
structure IngestEnv where
  hashFn : String → String
  freshId : String
  indexOutcome : Except String Unit
  totalChunks : Nat
  createdAt : String
  now : String

/-- `handleUploadDocument`: dedup by content hash (return the existing
document without touching the store), else process + index, upserting an
`indexed` document with the hash on success, or a `failed` one without the
hash on error. -/
def handleUploadDocument (env : IngestEnv) (store : DocumentStore)
    (request : DocumentUploadRequest) : DocumentUploadResponse × DocumentStore :=
  let contentHash := env.hashFn request.content
  match store.findByContentHash contentHash with
  | some existingDoc =>
    ({ document_id := existingDoc.document_id
       status := DocStatus.indexed
       chunks_count := some existingDoc.chunks_count
       message := "Duplicate content detected. Returning existing document (ID: "
         ++ existingDoc.document_id ++ ", Title: \"" ++ existingDoc.title ++ "\")" },
     store)
  | none =>
    let documentId := env.freshId
    match env.indexOutcome with
    | Except.ok _ =>
      let store' := store.upsert
        { document_id := documentId
          title := request.title
          category := request.category
          description := request.description
          status := DocStatus.indexed
          chunks_count := env.totalChunks
          created_at := env.createdAt
          updated_at := env.createdAt
          media_type := some "text"
          metadata := request.metadata
          content_hash := some contentHash } env.now
      ({ document_id := documentId
         status := DocStatus.indexed
         chunks_count := some env.totalChunks
         message := "Document indexed successfully with "
           ++ toString env.totalChunks ++ " chunks" },
       store')
    | Except.error emsg =>
      let store' := store.upsert
        { document_id := documentId
          title := request.title
          category := request.category
          description := request.description
          status := DocStatus.failed
          chunks_count := 0
          created_at := env.now
          updated_at := env.now
          metadata := request.metadata } env.now
      ({ document_id := documentId
         status := DocStatus.failed
         chunks_count := none
         message := emsg },
       store')

/-! ## Multi-query RRF fusion (`src/src/handlers/search.ts`, `multiQuerySearch`)

The per-variant backend calls are inputs (`lists`: one result list per
successful variant, in enumeration order).  The JS `Map` is an
insertion-ordered association list; `Array.from(map.values()).sort(...)` is a
stable sort by `rrfScore` descending, modelled by `List.insertionSort`
(stable) with the reflexive descending comparison. -/

/-- An entry of the `rrfResults` map. -/
structure RRFEntry where
  id : String
  rrfScore : ℚ
  maxScore : ℚ
  text : String
  metadata : Option SearchResultMetadata
deriving DecidableEq, Repr

/-- The in-place update of an existing map entry, verbatim from the source:
accumulate the RRF score, raise `maxScore`, then (dead code) replace
`text`/`metadata` when the new score exceeds the just-raised `maxScore`. -/
def updateRRFEntry (e : RRFEntry) (r : SearchResult) (w : ℚ) : RRFEntry :=
  let newMax := max e.maxScore r.score
  let e1 := { e with rrfScore := e.rrfScore + w, maxScore := newMax }
  if r.score > newMax then { e1 with text := r.text, metadata := r.metadata } else e1

/-- The same update without the unreachable replacement branch. -/
def updateRRFEntryNoBranch (e : RRFEntry) (r : SearchResult) (w : ℚ) : RRFEntry :=
  { e with rrfScore := e.rrfScore + w, maxScore := max e.maxScore r.score }

/-- Initialization of a fresh map entry. -/
def initRRFEntry (r : SearchResult) (w : ℚ) : RRFEntry :=
  { id := r.id, rrfScore := w, maxScore := r.score, text := r.text, metadata := r.metadata }

/-- Processing one result at 0-based rank `rank`:
`rrfScore = 1 / (RRF_K + rank + 1)` with `RRF_K = 60`. -/
def applyRRFResult (m : List (String × RRFEntry)) (r : SearchResult) (rank : Nat) :
    List (String × RRFEntry) :=
  let w : ℚ := 1 / (60 + (rank : ℚ) + 1)
  match List.lookup r.id m with
  | some e => mapSet m r.id (updateRRFEntry e r w)
  | none => m ++ [(r.id, initRRFEntry r w)]

/-- `queryResults.forEach((result, rank) => ...)`. -/
def applyRRFVariant (m : List (String × RRFEntry)) (results : List SearchResult) :
    List (String × RRFEntry) :=
  results.enum.foldl (fun acc p => applyRRFResult acc p.2 p.1) m

/-- The same pass with an explicit starting rank (for induction). -/
def applyRRFVariantFrom : List (String × RRFEntry) → List SearchResult → Nat →
    List (String × RRFEntry)
  | m, [], _ => m
  | m, r :: rs, k => applyRRFVariantFrom (applyRRFResult m r k) rs (k + 1)

/-- The accumulation loop over all (successful) variant result lists. -/
def rrfFuse (lists : List (List SearchResult)) : List (String × RRFEntry) :=
  lists.foldl applyRRFVariant []

/-- Stable sort by accumulated RRF score, descending (JS
`.sort((a, b) => b.rrfScore - a.rrfScore)`, a stable sort). -/
def sortRRFDesc (l : List RRFEntry) : List RRFEntry :=
  l.insertionSort (fun a b => b.rrfScore ≤ a.rrfScore)

/-- `multiQuerySearch` tail: sort, truncate to `limit`, and map entries back
to results with `score := maxScore`. -/
def multiQuerySearch (lists : List (List SearchResult)) (limit : Nat) :
    List SearchResult :=
  ((sortRRFDesc ((rrfFuse lists).map Prod.snd)).take limit).map
    (fun e => { id := e.id, score := e.maxScore, text := e.text, metadata := e.metadata })

/-- The `(rrfScore, maxScore)` view of one chunk-ID's map entry. -/
def entryScores (m : List (String × RRFEntry)) (id : String) : Option (ℚ × ℚ) :=
  (List.lookup id m).map (fun e => (e.rrfScore, e.maxScore))

/-- Merging two optional `(rrfScore, maxScore)` contributions: RRF scores
add, max scores take the maximum. -/
def combineScores : Option (ℚ × ℚ) → Option (ℚ × ℚ) → Option (ℚ × ℚ)
  | x, none => x
  | none, some y => some y
  | some x, some y => some (x.1 + y.1, max x.2 y.2)

/-- One variant list's contribution to a chunk-ID, starting at rank `k`: a
result at rank `r` contributes `1 / (60 + r + 1)` to the RRF score and its
semantic score to the running max. -/
def variantScoresFrom (id : String) : List SearchResult → Nat → Option (ℚ × ℚ)
  | [], _ => none
  | r :: rs, k =>
    let rest := variantScoresFrom id rs (k + 1)
    if r.id = id then combineScores (some (1 / (60 + (k : ℚ) + 1), r.score)) rest
    else rest

/-- The semantic scores of all occurrences of a chunk-ID, in processing
order. -/
def occurrenceScores (lists : List (List SearchResult)) (id : String) : List ℚ :=
  (lists.map (fun l => (l.filter (fun r => r.id == id)).map (fun r => r.score))).flatten

/-- Folding one more occurrence score into the running max. -/
def maxStep (x : Option ℚ) (s : ℚ) : Option ℚ :=
  some (match x with | none => s | some v => max v s)

/-- The descending-by-`rrfScore` comparison is total. -/
instance : IsTotal RRFEntry (fun a b => b.rrfScore ≤ a.rrfScore) :=
  ⟨fun a b => (le_total b.rrfScore a.rrfScore).elim Or.inl Or.inr⟩

/-- The descending-by-`rrfScore` comparison is transitive. -/
instance : IsTrans RRFEntry (fun a b => b.rrfScore ≤ a.rrfScore) :=
  ⟨fun _ _ _ hab hbc => le_trans hbc hab⟩

/-- First concrete raw result for the RRF counterexample. -/
def rrfResA : SearchResult := { id := "a", score := 1, text := "ta" }

/-- Second concrete raw result for the RRF counterexample. -/
def rrfResB : SearchResult := { id := "b", score := 1, text := "tb" }

/-- The `(text, metadata)` view of one chunk-ID's map entry. -/
def entryTextMeta (m : List (String × RRFEntry)) (id : String) :
    Option (String × Option SearchResultMetadata) :=
  (List.lookup id m).map (fun e => (e.text, e.metadata))

/-- The `maxScore` view of one chunk-ID's map entry. -/
def entryMax (m : List (String × RRFEntry)) (id : String) : Option ℚ :=
  (List.lookup id m).map (fun e => e.maxScore)

/-! ## Theorems -/

/-- Helper: `countTokens` on a CJK-free string is `(length + 3) / 4`. -/
theorem countTokens_of_nonCJK (text : String) (h : ∀ c ∈ text.data, isCJK c = false) :
    countTokens text = (text.data.length + 3) / 4 := by
  have hf : text.data.filter isCJK = [] := by
    rw [List.filter_eq_nil_iff]
    intro a ha
    simp [h a ha]
  simp [countTokens, hf]

/-- Helper: when truncation fires on a CJK-free text, the computed character
limit is at most `4 * maxTokens`. -/
theorem truncCharLimit_le_of_nonCJK (text : String) (maxTokens : Nat)
    (h : ∀ c ∈ text.data, isCJK c = false) (hlt : maxTokens < countTokens text) :
    truncCharLimit text maxTokens ≤ 4 * maxTokens := by
  have hct := countTokens_of_nonCJK text h
  have hcurpos : 0 < countTokens text := Nat.lt_of_le_of_lt (Nat.zero_le _) hlt
  have hlen4 : text.data.length ≤ 4 * countTokens text := by omega
  have h2 : (0 : ℚ) < (countTokens text : ℚ) := by exact_mod_cast hcurpos
  have h1 : (text.data.length : ℚ) ≤ 4 * (countTokens text : ℚ) := by exact_mod_cast hlen4
  have hmax0 : (0 : ℚ) ≤ (maxTokens : ℚ) := by positivity
  have hq : (text.data.length : ℚ) * ((maxTokens : ℚ) / (countTokens text : ℚ)) * (95 / 100)
      ≤ ((4 * maxTokens : ℕ) : ℚ) := by
    have heq : (text.data.length : ℚ) * ((maxTokens : ℚ) / (countTokens text : ℚ)) * (95 / 100)
        = ((text.data.length : ℚ) * (maxTokens : ℚ) * 95) / ((countTokens text : ℚ) * 100) := by
      ring
    rw [heq, div_le_iff₀ (by positivity)]
    push_cast
    nlinarith [mul_nonneg (sub_nonneg.mpr h1) hmax0, mul_nonneg h2.le hmax0]
  simp only [truncCharLimit]
  rw [Int.toNat_le]
  calc ⌊(text.data.length : ℚ) * ((maxTokens : ℚ) / (countTokens text : ℚ)) * ((95 : ℚ) / 100)⌋
      ≤ ⌊((4 * maxTokens : ℕ) : ℚ)⌋ := Int.floor_le_floor hq
    _ = ((4 * maxTokens : ℕ) : ℤ) := Int.floor_natCast _

/-- **C7 (amended).** For CJK-free text, `truncate(text, max_tokens)` returns the
text unchanged when its estimate is within budget; otherwise it returns the
prefix of length `truncCharLimit` with an ellipsis appended, and that prefix's
token estimate is at most `max_tokens`.  (For mixed CJK/ASCII text the prefix
bound can fail — see the counterexample.) -/
theorem truncate_budget_nonCJK (text : String) (maxTokens : Nat)
    (h : ∀ c ∈ text.data, isCJK c = false) :
    (countTokens text ≤ maxTokens → truncateToTokenBudget text maxTokens = text) ∧
    (maxTokens < countTokens text →
      truncateToTokenBudget text maxTokens
        = String.mk (text.data.take (truncCharLimit text maxTokens)) ++ "..." ∧
      countTokens (String.mk (text.data.take (truncCharLimit text maxTokens))) ≤ maxTokens) := by
  constructor
  · intro hle
    simp [truncateToTokenBudget, hle]
  · intro hlt
    refine ⟨by simp [truncateToTokenBudget, Nat.not_le.mpr hlt], ?_⟩
    have hsub : ∀ c ∈ (String.mk (text.data.take (truncCharLimit text maxTokens))).data,
        isCJK c = false := by
      intro c hc
      exact h c (List.take_subset _ _ hc)
    rw [countTokens_of_nonCJK _ hsub]
    have hlim := truncCharLimit_le_of_nonCJK text maxTokens h hlt
    have : (String.mk (text.data.take (truncCharLimit text maxTokens))).data.length
        = min (truncCharLimit text maxTokens) text.data.length := List.length_take _ _
    omega

/-- Helper: the character limit, computed over `ℚ` exactly as in the source,
equals a pure `Nat` division (usable for kernel evaluation). -/
theorem truncCharLimit_eq (text : String) (maxTokens : Nat) :
    truncCharLimit text maxTokens
      = 95 * text.data.length * maxTokens / (100 * countTokens text) := by
  simp only [truncCharLimit]
  rcases Nat.eq_zero_or_pos (countTokens text) with h | h
  · simp [h]
  · have hne : ((countTokens text : ℚ)) ≠ 0 := by
      exact_mod_cast h.ne'
    have heq : (text.data.length : ℚ) * ((maxTokens : ℚ) / (countTokens text : ℚ)) * (95 / 100)
        = ((95 * text.data.length * maxTokens : ℕ) : ℚ) / ((100 * countTokens text : ℕ) : ℚ) := by
      push_cast
      field_simp
      ring
    rw [heq, Rat.floor_natCast_div_natCast, ← Int.ofNat_ediv, Int.toNat_natCast]

/-- **C7 counterexample.** On a text of 6 CJK + 74 ASCII characters with
budget 4, truncation fires and returns the 13-character prefix plus an
ellipsis, but that prefix's token estimate is 6 > 4: the claimed prefix token
bound is false. -/
theorem truncate_budget_counterexample :
    truncateToTokenBudget truncCexText 4
      = String.mk (truncCexText.data.take (truncCharLimit truncCexText 4)) ++ "..." ∧
    ¬ countTokens (String.mk (truncCexText.data.take (truncCharLimit truncCexText 4))) ≤ 4 := by
  have h13 : truncCharLimit truncCexText 4 = 13 := by
    rw [truncCharLimit_eq]
    decide
  constructor
  · simp only [truncateToTokenBudget, if_neg (by decide : ¬ countTokens truncCexText ≤ 4)]
  · rw [h13]
    decide

/-- Witness for `truncate_budget_nonCJK` at the ASCII text of 8 `'a'`s with
budget 1: truncation fires and the 3-character prefix fits the budget. -/
theorem truncate_budget_nonCJK_witness :
    truncateToTokenBudget (String.mk (List.replicate 8 'a')) 1
      = String.mk ((String.mk (List.replicate 8 'a')).data.take
          (truncCharLimit (String.mk (List.replicate 8 'a')) 1)) ++ "..." ∧
    countTokens (String.mk ((String.mk (List.replicate 8 'a')).data.take
          (truncCharLimit (String.mk (List.replicate 8 'a')) 1))) ≤ 1 :=
  (truncate_budget_nonCJK (String.mk (List.replicate 8 'a')) 1 (by decide)).2 (by decide)

/-- Helper: with a nonzero budget `b`, the selection loop keeps the running
total equal to the sum of the emitted chunks' token counts and never exceeds
`b`. -/
theorem searchSelectLoop_sum_le (minScore : ℚ) (limit b : Nat)
    (store : DocumentStore) (extractTitle : String → String) (hb : b ≠ 0) :
    ∀ (results : List SearchResult) (chunks : List ProviderChunk) (total : Nat),
      total = (chunks.map (fun c => countTokens c.content)).sum → total ≤ b →
      (searchSelectLoop minScore limit (some b) store extractTitle results chunks total).2
          = ((searchSelectLoop minScore limit (some b) store extractTitle results chunks
              total).1.map (fun c => countTokens c.content)).sum ∧
        (searchSelectLoop minScore limit (some b) store extractTitle results chunks total).2 ≤ b := by
  intro results
  induction results with
  | nil =>
    intro chunks total h1 h2
    exact ⟨by simpa [searchSelectLoop] using h1, by simpa [searchSelectLoop] using h2⟩
  | cons r rest ih =>
    intro chunks total h1 h2
    by_cases hs : r.score < minScore
    · have heq :
          searchSelectLoop minScore limit (some b) store extractTitle (r :: rest) chunks total
            = searchSelectLoop minScore limit (some b) store extractTitle rest chunks total := by
        simp [searchSelectLoop, hs]
      rw [heq]
      exact ih chunks total h1 h2
    · by_cases hbr :
        tokenBudgetBreak (some b)
          (total + countTokens (buildChunk store extractTitle r).content) = true
      · have heq :
            searchSelectLoop minScore limit (some b) store extractTitle (r :: rest) chunks total
              = (chunks, total) := by
          simp [searchSelectLoop, hs, hbr]
        rw [heq]
        exact ⟨h1, h2⟩
      · have hle : total + countTokens (buildChunk store extractTitle r).content ≤ b := by
          simp only [tokenBudgetBreak, Bool.and_eq_true, bne_iff_ne, ne_eq,
            decide_eq_true_eq, not_and, not_lt] at hbr
          exact hbr hb
        have hsum :
            total + countTokens (buildChunk store extractTitle r).content
              = ((chunks ++ [buildChunk store extractTitle r]).map
                  (fun c => countTokens c.content)).sum := by
          simp [h1]
        by_cases hl : limit ≤ chunks.length + 1
        · have heq :
              searchSelectLoop minScore limit (some b) store extractTitle (r :: rest) chunks total
                = (chunks ++ [buildChunk store extractTitle r],
                   total + countTokens (buildChunk store extractTitle r).content) := by
            simp [searchSelectLoop, hs, hbr, hl]
          rw [heq]
          exact ⟨hsum, hle⟩
        · have hrec := ih (chunks ++ [buildChunk store extractTitle r])
            (total + countTokens (buildChunk store extractTitle r).content) hsum hle
          have heq :
              searchSelectLoop minScore limit (some b) store extractTitle (r :: rest) chunks total
                = searchSelectLoop minScore limit (some b) store extractTitle rest
                    (chunks ++ [buildChunk store extractTitle r])
                    (total + countTokens (buildChunk store extractTitle r).content) := by
            simp [searchSelectLoop, hs, hbr, hl]
          rw [heq]
          exact hrec

/-- **C3 (amended).** For every search request that supplies a *positive*
token budget, the response's chunks satisfy
`sum(tokens(chunk.content)) ≤ token_budget`, and `total_tokens` is that sum:
chunks are appended in rank order until either the limit is reached or the
next chunk would exceed the budget (stopping without appending it).  A
budget of `0` is falsy in the guard and is not enforced — see the
counterexample. -/
theorem token_budget_respected_pos (providerName : String) (minScore : ℚ)
    (limit b : Nat) (store : DocumentStore) (extractTitle : String → String)
    (results : List SearchResult) (hb : 0 < b) :
    ((handleSearchResponse providerName minScore limit (some b) store extractTitle
        results).chunks.map (fun c => countTokens c.content)).sum ≤ b ∧
    (handleSearchResponse providerName minScore limit (some b) store extractTitle
        results).total_tokens
      = ((handleSearchResponse providerName minScore limit (some b) store extractTitle
          results).chunks.map (fun c => countTokens c.content)).sum := by
  have h := searchSelectLoop_sum_le minScore limit b store extractTitle
    (Nat.pos_iff_ne_zero.mp hb) results [] 0 (by simp) (Nat.zero_le _)
  exact ⟨h.1 ▸ h.2, by simpa [handleSearchResponse] using h.1⟩

/-- Witness for `token_budget_respected_pos` at a concrete one-result search
with budget 1: the budget hypothesis holds and the returned chunk token sum
is within budget. -/
theorem token_budget_respected_pos_witness :
    0 < 1 ∧
    (((handleSearchResponse "knowledgebase" 0 5 (some 1) ⟨[]⟩ (fun _ => "")
        [cexResult]).chunks.map (fun c => countTokens c.content)).sum ≤ 1 ∧
     (handleSearchResponse "knowledgebase" 0 5 (some 1) ⟨[]⟩ (fun _ => "")
        [cexResult]).total_tokens
       = ((handleSearchResponse "knowledgebase" 0 5 (some 1) ⟨[]⟩ (fun _ => "")
          [cexResult]).chunks.map (fun c => countTokens c.content)).sum) :=
  ⟨by decide,
   token_budget_respected_pos "knowledgebase" 0 5 1 ⟨[]⟩ (fun _ => "") [cexResult] (by decide)⟩

/-- **C3 counterexample.** With a supplied `token_budget` of `0` (a value
`≥ 0` as the claim allows), the zero budget is falsy, the guard is skipped,
and a 2-token chunk is returned: the claimed bound `sum ≤ token_budget`
fails. -/
theorem token_budget_zero_counterexample :
    ¬ (((handleSearchResponse "knowledgebase" 0 5 (some 0) ⟨[]⟩ (fun _ => "")
        [cexResult]).chunks.map (fun c => countTokens c.content)).sum ≤ 0) := by
  have hscore : ¬ (cexResult.score < (0 : ℚ)) := by norm_num [cexResult]
  have hcontent : (buildChunk ⟨[]⟩ (fun _ => "") cexResult).content = "hello" := rfl
  have hloop :
      searchSelectLoop 0 5 (some 0) ⟨[]⟩ (fun _ => "") [cexResult] [] 0
        = ([buildChunk ⟨[]⟩ (fun _ => "") cexResult], countTokens "hello") := by
    simp [searchSelectLoop, hscore, tokenBudgetBreak, hcontent]
  simp only [handleSearchResponse, hloop, hcontent, List.map_cons, List.map_nil]
  decide

/-- Helper: one `tryAcquire` step preserves the bucket invariants and its
success is paid for by the token potential. -/
theorem tryAcquire_step (s : TokenBucketRateLimiter) (t : ℚ)
    (_hR : 0 ≤ s.refillRate) (h0 : 0 ≤ s.tokens) (hcap : s.tokens ≤ s.maxTokens)
    (hlr : s.lastRefill ≤ t) :
    0 ≤ (s.tryAcquire t).2.tokens ∧ (s.tryAcquire t).2.tokens ≤ s.maxTokens ∧
    s.lastRefill ≤ (s.tryAcquire t).2.lastRefill ∧ (s.tryAcquire t).2.lastRefill ≤ t ∧
    (s.tryAcquire t).2.maxTokens = s.maxTokens ∧
    (s.tryAcquire t).2.refillRate = s.refillRate ∧
    (if (s.tryAcquire t).1 then (1 : ℚ) else 0) + (s.tryAcquire t).2.tokens
      ≤ s.tokens + s.refillRate * ((s.tryAcquire t).2.lastRefill - s.lastRefill) / 1000 := by
  have hmax0 : 0 ≤ s.maxTokens := le_trans h0 hcap
  by_cases hre : 1 ≤ (t - s.lastRefill) / 1000 * s.refillRate
  · have hrefill : s.refill t
        = { s with
            tokens := min (s.tokens + (t - s.lastRefill) / 1000 * s.refillRate) s.maxTokens,
            lastRefill := t } := by
      simp only [TokenBucketRateLimiter.refill]
      rw [if_pos hre]
    have hadd0 : (0 : ℚ) ≤ (t - s.lastRefill) / 1000 * s.refillRate := le_trans zero_le_one hre
    have hm1 := min_le_left (s.tokens + (t - s.lastRefill) / 1000 * s.refillRate) s.maxTokens
    have hm2 := min_le_right (s.tokens + (t - s.lastRefill) / 1000 * s.refillRate) s.maxTokens
    by_cases hs1 : 1 ≤ min (s.tokens + (t - s.lastRefill) / 1000 * s.refillRate) s.maxTokens
    · have hta : s.tryAcquire t
          = (true, { s with
              tokens := min (s.tokens + (t - s.lastRefill) / 1000 * s.refillRate) s.maxTokens - 1,
              lastRefill := t }) := by
        simp only [TokenBucketRateLimiter.tryAcquire, hrefill]
        rw [if_pos hs1]
      rw [hta]
      refine ⟨?_, ?_, hlr, le_rfl, rfl, rfl, ?_⟩
      · show (0 : ℚ)
            ≤ min (s.tokens + (t - s.lastRefill) / 1000 * s.refillRate) s.maxTokens - 1
        linarith
      · show min (s.tokens + (t - s.lastRefill) / 1000 * s.refillRate) s.maxTokens - 1
            ≤ s.maxTokens
        linarith
      · show (if ((true : Bool) = true) then (1 : ℚ) else 0)
            + (min (s.tokens + (t - s.lastRefill) / 1000 * s.refillRate) s.maxTokens - 1)
            ≤ s.tokens + s.refillRate * (t - s.lastRefill) / 1000
        rw [if_pos rfl]
        have hring : s.refillRate * (t - s.lastRefill) / 1000
            = (t - s.lastRefill) / 1000 * s.refillRate := by ring
        rw [hring]
        linarith
    · have hta : s.tryAcquire t
          = (false, { s with
              tokens := min (s.tokens + (t - s.lastRefill) / 1000 * s.refillRate) s.maxTokens,
              lastRefill := t }) := by
        simp only [TokenBucketRateLimiter.tryAcquire, hrefill]
        rw [if_neg hs1]
      rw [hta]
      refine ⟨?_, ?_, hlr, le_rfl, rfl, rfl, ?_⟩
      · show (0 : ℚ)
            ≤ min (s.tokens + (t - s.lastRefill) / 1000 * s.refillRate) s.maxTokens
        exact le_min (by linarith) hmax0
      · show min (s.tokens + (t - s.lastRefill) / 1000 * s.refillRate) s.maxTokens
            ≤ s.maxTokens
        exact hm2
      · show (if ((false : Bool) = true) then (1 : ℚ) else 0)
            + min (s.tokens + (t - s.lastRefill) / 1000 * s.refillRate) s.maxTokens
            ≤ s.tokens + s.refillRate * (t - s.lastRefill) / 1000
        rw [if_neg Bool.false_ne_true]
        have hring : s.refillRate * (t - s.lastRefill) / 1000
            = (t - s.lastRefill) / 1000 * s.refillRate := by ring
        rw [hring]
        linarith
  · have hrefill : s.refill t = s := by
      simp only [TokenBucketRateLimiter.refill]
      rw [if_neg hre]
    by_cases hs1 : 1 ≤ s.tokens
    · have hta : s.tryAcquire t = (true, { s with tokens := s.tokens - 1 }) := by
        simp only [TokenBucketRateLimiter.tryAcquire, hrefill]
        rw [if_pos hs1]
      rw [hta]
      refine ⟨?_, ?_, le_rfl, hlr, rfl, rfl, ?_⟩
      · show (0 : ℚ) ≤ s.tokens - 1
        linarith
      · show s.tokens - 1 ≤ s.maxTokens
        linarith
      · show (if ((true : Bool) = true) then (1 : ℚ) else 0) + (s.tokens - 1)
            ≤ s.tokens + s.refillRate * (s.lastRefill - s.lastRefill) / 1000
        rw [if_pos rfl]
        have hring : s.refillRate * (s.lastRefill - s.lastRefill) / 1000 = 0 := by ring
        rw [hring]
        linarith
    · have hta : s.tryAcquire t = (false, s) := by
        simp only [TokenBucketRateLimiter.tryAcquire, hrefill]
        rw [if_neg hs1]
      rw [hta]
      refine ⟨h0, hcap, le_rfl, hlr, rfl, rfl, ?_⟩
      show (if ((false : Bool) = true) then (1 : ℚ) else 0) + s.tokens
          ≤ s.tokens + s.refillRate * (s.lastRefill - s.lastRefill) / 1000
      rw [if_neg Bool.false_ne_true]
      have hring : s.refillRate * (s.lastRefill - s.lastRefill) / 1000 = 0 := by ring
      rw [hring]
      linarith

/-- Helper: invariant for a full run of attempts inside a window
`[w, w + 1000·T]` (milliseconds). -/
theorem runAttempts_invariant (w T : ℚ) :
    ∀ (times : List ℚ) (s : TokenBucketRateLimiter),
      0 ≤ s.refillRate → 0 ≤ s.tokens → s.tokens ≤ s.maxTokens →
      w ≤ s.lastRefill → s.lastRefill ≤ w + 1000 * T →
      List.Pairwise (· ≤ ·) times →
      (∀ t ∈ times, s.lastRefill ≤ t ∧ t ≤ w + 1000 * T) →
      ((runAttempts s times).1 : ℚ) + (runAttempts s times).2.tokens
          ≤ s.tokens + s.refillRate * ((runAttempts s times).2.lastRefill - s.lastRefill) / 1000 ∧
      0 ≤ (runAttempts s times).2.tokens ∧
      (runAttempts s times).2.maxTokens = s.maxTokens ∧
      (runAttempts s times).2.refillRate = s.refillRate ∧
      s.lastRefill ≤ (runAttempts s times).2.lastRefill ∧
      (runAttempts s times).2.lastRefill ≤ w + 1000 * T := by
  intro times
  induction times with
  | nil =>
    intro s hR h0 hcap hw hw2 hsort hin
    refine ⟨?_, h0, rfl, rfl, le_rfl, hw2⟩
    simp only [runAttempts]
    push_cast
    have hz : s.refillRate * (s.lastRefill - s.lastRefill) / 1000 = 0 := by ring
    rw [hz]
    linarith
  | cons t ts ih =>
    intro s hR h0 hcap hw hw2 hsort hin
    have hlrt : s.lastRefill ≤ t := (hin t (List.mem_cons_self t ts)).1
    have htw : t ≤ w + 1000 * T := (hin t (List.mem_cons_self t ts)).2
    have hstep := tryAcquire_step s t hR h0 hcap hlrt
    obtain ⟨p0, pcap, plr1, plr2, pmax, prate, ppot⟩ := hstep
    have hihyp := ih (s.tryAcquire t).2 (prate ▸ hR) p0 (pmax ▸ pcap)
      (le_trans hw plr1) (le_trans plr2 htw)
      (List.pairwise_cons.mp hsort).2
      (by
        intro u hu
        refine ⟨le_trans plr2 ?_, (hin u (List.mem_cons_of_mem t hu)).2⟩
        exact List.rel_of_pairwise_cons hsort hu)
    obtain ⟨ipot, i0, imax, irate, ilr1, ilr2⟩ := hihyp
    have heq : runAttempts s (t :: ts)
        = ((if (s.tryAcquire t).1 then 1 else 0) + (runAttempts (s.tryAcquire t).2 ts).1,
           (runAttempts (s.tryAcquire t).2 ts).2) := by
      simp [runAttempts]
    rw [heq]
    refine ⟨?_, i0, imax.trans pmax, irate.trans prate, le_trans plr1 ilr1, ilr2⟩
    rw [prate] at ipot
    push_cast
    by_cases hsucc : (s.tryAcquire t).1
    · rw [if_pos hsucc] at ppot ⊢
      linarith [ipot, ppot]
    · rw [if_neg hsucc] at ppot ⊢
      linarith [ipot, ppot]

/-- **C5.** Over any window `[w, w + 1000·T]` (milliseconds, `T` in seconds),
a run of `tryAcquire` attempts at nondecreasing in-window timestamps grants at
most `capacity + refill·T` admissions; moreover each attempt refills by
`elapsed · refill` (capped at capacity, only when at least one token accrues,
advancing `last_refill`), then succeeds iff at least one token is available,
consuming one. -/
theorem rate_limiter_no_overshoot (s₀ : TokenBucketRateLimiter) (w T : ℚ)
    (times : List ℚ)
    (hR : 0 ≤ s₀.refillRate) (h0 : 0 ≤ s₀.tokens) (hcap : s₀.tokens ≤ s₀.maxTokens)
    (hw : w ≤ s₀.lastRefill) (hw2 : s₀.lastRefill ≤ w + 1000 * T)
    (hsort : List.Pairwise (· ≤ ·) times)
    (hin : ∀ t ∈ times, s₀.lastRefill ≤ t ∧ t ≤ w + 1000 * T) :
    ((runAttempts s₀ times).1 : ℚ) ≤ s₀.maxTokens + s₀.refillRate * T ∧
    (∀ (s : TokenBucketRateLimiter) (now : ℚ),
      ((s.tryAcquire now).1 = true ↔ 1 ≤ (s.refill now).tokens)) ∧
    (∀ (s : TokenBucketRateLimiter) (now : ℚ),
      (s.tryAcquire now).2.tokens
        = (s.refill now).tokens - (if 1 ≤ (s.refill now).tokens then 1 else 0)) ∧
    (∀ (s : TokenBucketRateLimiter) (now : ℚ),
      s.refill now
        = if 1 ≤ (now - s.lastRefill) / 1000 * s.refillRate then
            { s with
              tokens := min (s.tokens + (now - s.lastRefill) / 1000 * s.refillRate) s.maxTokens,
              lastRefill := now }
          else s) := by
  refine ⟨?_, ?_, ?_, ?_⟩
  · have hinv := runAttempts_invariant w T times s₀ hR h0 hcap hw hw2 hsort hin
    obtain ⟨hpot, hf0, _, _, hlr1, hlr2⟩ := hinv
    have hdiff : (runAttempts s₀ times).2.lastRefill - s₀.lastRefill ≤ 1000 * T := by
      linarith
    have hmul : s₀.refillRate * ((runAttempts s₀ times).2.lastRefill - s₀.lastRefill)
        ≤ s₀.refillRate * (1000 * T) := mul_le_mul_of_nonneg_left hdiff hR
    have hdiv : s₀.refillRate * ((runAttempts s₀ times).2.lastRefill - s₀.lastRefill) / 1000
        ≤ s₀.refillRate * T := by
      have h1000 : (0 : ℚ) < 1000 := by norm_num
      calc s₀.refillRate * ((runAttempts s₀ times).2.lastRefill - s₀.lastRefill) / 1000
          ≤ s₀.refillRate * (1000 * T) / 1000 := by
            exact div_le_div_of_nonneg_right hmul h1000.le
        _ = s₀.refillRate * T := by ring
    linarith
  · intro s now
    simp only [TokenBucketRateLimiter.tryAcquire]
    by_cases h : 1 ≤ (s.refill now).tokens
    · simp [h]
    · simp [h]
  · intro s now
    simp only [TokenBucketRateLimiter.tryAcquire]
    by_cases h : 1 ≤ (s.refill now).tokens
    · simp [h]
    · simp [h]
  · intro s now
    simp only [TokenBucketRateLimiter.refill]

/-- Witness for `rate_limiter_no_overshoot` at a concrete bucket
(capacity 10, refill 2/s, full, `lastRefill = 0`) with a single attempt at
time 0 inside the window `[0, 0]`. -/
theorem rate_limiter_no_overshoot_witness :
    (0 : ℚ) ≤ 2 ∧
    ((runAttempts ⟨10, 2, 10, 0⟩ [0]).1 : ℚ) ≤ 10 + 2 * 0 :=
  ⟨by norm_num,
   (rate_limiter_no_overshoot ⟨10, 2, 10, 0⟩ 0 0 [0]
      (by norm_num) (by norm_num) (by norm_num) (by norm_num) (by norm_num)
      (by simp)
      (by
        intro t ht
        rw [List.mem_singleton] at ht
        subst ht
        norm_num)).1⟩

/-- Helper: `process` preserves the configuration, keeps `running` within the
concurrency cap, and never grows the backlog. -/
theorem process_inv (s : RequestQueue) (h1 : s.running ≤ s.concurrency) :
    (s.process).concurrency = s.concurrency ∧ (s.process).maxQueueSize = s.maxQueueSize ∧
    (s.process).running ≤ s.concurrency ∧ (s.process).queue.length ≤ s.queue.length := by
  by_cases h : s.concurrency ≤ s.running ∨ s.queue = []
  · simp [RequestQueue.process, h, h1]
  · have hno : ¬ (s.concurrency ≤ s.running ∨ s.queue = []) := h
    push_neg at h
    simp only [RequestQueue.process, if_neg hno]
    refine ⟨by trivial, by trivial, h.1, ?_⟩
    have := List.length_tail s.queue
    omega

/-- Helper: every event transition preserves the queue invariant. -/
theorem step_inv (s : RequestQueue) (e : QueueEvent)
    (h1 : s.running ≤ s.concurrency) (h2 : s.queue.length ≤ s.maxQueueSize) :
    (s.step e).concurrency = s.concurrency ∧ (s.step e).maxQueueSize = s.maxQueueSize ∧
    (s.step e).running ≤ s.concurrency ∧ (s.step e).queue.length ≤ s.maxQueueSize := by
  cases e with
  | submit =>
    by_cases hfull : s.maxQueueSize ≤ s.queue.length
    · simp [RequestQueue.step, RequestQueue.submit, hfull, h1, h2]
    · have hmid : ({ s with queue := s.queue ++ [()] } : RequestQueue).running
          ≤ ({ s with queue := s.queue ++ [()] } : RequestQueue).concurrency := h1
      have hp := process_inv { s with queue := s.queue ++ [()] } hmid
      simp only [RequestQueue.step, RequestQueue.submit, if_neg hfull]
      refine ⟨hp.1, hp.2.1, hp.2.2.1, ?_⟩
      have := hp.2.2.2
      simp only [List.length_append, List.length_singleton] at this
      omega
  | complete =>
    by_cases hz : s.running = 0
    · simp [RequestQueue.step, RequestQueue.complete, hz, h1, h2]
    · have hmid : ({ s with running := s.running - 1 } : RequestQueue).running
          ≤ ({ s with running := s.running - 1 } : RequestQueue).concurrency := by
        simp only
        omega
      have hp := process_inv { s with running := s.running - 1 } hmid
      simp only [RequestQueue.step, RequestQueue.complete, if_neg hz]
      exact ⟨hp.1, hp.2.1, hp.2.2.1, le_trans hp.2.2.2 h2⟩

/-- Helper: the invariant holds along any fold of events. -/
theorem queueRun_inv (c m : Nat) :
    ∀ (events : List QueueEvent) (s : RequestQueue),
      s.concurrency = c → s.maxQueueSize = m → s.running ≤ c → s.queue.length ≤ m →
      (events.foldl RequestQueue.step s).running ≤ c ∧
      (events.foldl RequestQueue.step s).queue.length ≤ m := by
  intro events
  induction events with
  | nil =>
    intro s hc hm h1 h2
    exact ⟨h1, h2⟩
  | cons e es ih =>
    intro s hc hm h1 h2
    have hs := step_inv s e (by rw [hc]; exact h1) (by rw [hm]; exact h2)
    exact ih (s.step e) (hs.1.trans hc) (hs.2.1.trans hm)
      (hc ▸ hs.2.2.1) (hm ▸ hs.2.2.2)

/-- **C6.** From a fresh queue, after any sequence of submissions and
completions, `running + pending ≤ max_concurrency + max_backlog`; and a
submission made while the backlog already holds `max_backlog` pending jobs is
rejected immediately with the state (including the running jobs) unchanged. -/
theorem request_queue_bound (concurrency maxQueueSize : Nat)
    (events : List QueueEvent) :
    (queueRun concurrency maxQueueSize events).running
        + (queueRun concurrency maxQueueSize events).queue.length
      ≤ concurrency + maxQueueSize ∧
    (∀ s : RequestQueue, s.maxQueueSize ≤ s.queue.length → s.submit = (false, s)) := by
  constructor
  · have h := queueRun_inv concurrency maxQueueSize events
      ⟨concurrency, maxQueueSize, 0, []⟩ rfl rfl (Nat.zero_le _) (by simp)
    have h1 := h.1
    have h2 := h.2
    simp only [queueRun]
    omega
  · intro s hfull
    simp [RequestQueue.submit, hfull]

/-- Witness for `request_queue_bound`: a queue with concurrency 1 and backlog
1 stays within bound over three submissions, and a concrete full queue
rejects a submission unchanged. -/
theorem request_queue_bound_witness :
    ((queueRun 1 1 [QueueEvent.submit, QueueEvent.submit, QueueEvent.submit]).running
        + (queueRun 1 1 [QueueEvent.submit, QueueEvent.submit, QueueEvent.submit]).queue.length
      ≤ 1 + 1) ∧
    (⟨1, 1, 1, [()]⟩ : RequestQueue).submit = (false, (⟨1, 1, 1, [()]⟩ : RequestQueue)) :=
  ⟨(request_queue_bound 1 1 [QueueEvent.submit, QueueEvent.submit, QueueEvent.submit]).1,
   (request_queue_bound 1 1 []).2 ⟨1, 1, 1, [()]⟩ (by decide)⟩

/-- **C10.** In both chat entry points, an explicitly supplied `0` for
`search_limit`, `temperature` or `max_tokens` resolves exactly as an absent
value (JS `||`), so the LLM request for a `temperature: 0` chat uses the
configured default temperature; `include_sources` is `true` for every value
except the literal `false`. -/
theorem chat_options_falsy_defaults (cfg : ChatConfig)
    (sl mt : Option ℚ) (isrc : Option Bool) (sp up : String) :
    resolveChatStreamOptions
        (some { search_limit := sl, temperature := some 0, max_tokens := mt,
                include_sources := isrc }) cfg
      = resolveChatStreamOptions
          (some { search_limit := sl, temperature := none, max_tokens := mt,
                  include_sources := isrc }) cfg ∧
    (resolveChatStreamOptions
        (some { search_limit := sl, temperature := some 0, max_tokens := mt,
                include_sources := isrc }) cfg).temperature = cfg.defaultTemperature ∧
    (buildChatLLMRequest sp up
        (resolveChatStreamOptions
          (some { search_limit := sl, temperature := some 0, max_tokens := mt,
                  include_sources := isrc }) cfg)).temperature = cfg.defaultTemperature ∧
    (∀ (t mt' : Option ℚ) (i : Option Bool),
      (resolveChatStreamOptions
          (some { search_limit := some 0, temperature := t, max_tokens := mt',
                  include_sources := i }) cfg).searchLimit = cfg.defaultSearchLimit ∧
      (resolveChatStreamOptions
          (some { search_limit := some 0, temperature := t, max_tokens := mt',
                  include_sources := i }) cfg).searchLimit
        = (resolveChatStreamOptions
            (some { search_limit := none, temperature := t, max_tokens := mt',
                    include_sources := i }) cfg).searchLimit) ∧
    (∀ (t sl' : Option ℚ) (i : Option Bool),
      (resolveChatStreamOptions
          (some { search_limit := sl', temperature := t, max_tokens := some 0,
                  include_sources := i }) cfg).maxTokens = cfg.defaultMaxTokens) ∧
    (∀ (o : Option ChatOptions),
      (resolveChatStreamOptions o cfg).includeSources
        = !(o.bind (·.include_sources) == some false)) ∧
    (∀ (o : Option ChatOptions),
      resolveChatSyncOptions o cfg = resolveChatStreamOptions o cfg) := by
  refine ⟨?_, ?_, ?_, ?_, ?_, ?_, ?_⟩
  · simp [resolveChatStreamOptions, jsOrNumDefault]
  · simp [resolveChatStreamOptions, jsOrNumDefault]
  · simp [buildChatLLMRequest, resolveChatStreamOptions, jsOrNumDefault]
  · intro t mt' i
    constructor
    · simp [resolveChatStreamOptions, jsOrNumDefault]
    · simp [resolveChatStreamOptions, jsOrNumDefault]
  · intro t sl' i
    simp [resolveChatStreamOptions, jsOrNumDefault]
  · intro o
    rcases o with _ | o
    · simp [resolveChatStreamOptions]
    · rcases ho : o.include_sources with _ | b
      · simp [resolveChatStreamOptions, ho]
      · cases b <;> simp [resolveChatStreamOptions, ho]
  · intro o
    rfl

/-- **C8.** `processQuery` never throws: it always returns `ok`; a query of
fewer than 5 characters is returned unchanged with method `original`; and
when both LLM calls fail — whether thrown errors (queue/provider) or
rate-limiter rejections — the result degrades to the original query with
method `original`. -/
theorem query_processor_never_throws (env : QueryProcessorEnv) (q : String) :
    (∃ r, QueryProcessor.processQuery env q = Except.ok r) ∧
    (q.length < 5 →
      QueryProcessor.processQuery env q
        = Except.ok { processedQuery := q, method := QueryMethod.original }) ∧
    (∀ e₁ e₂, env.expandCall = Except.error e₁ → env.rewriteCall = Except.error e₂ →
      env.expandAcquire = true → env.rewriteAcquire = true →
      QueryProcessor.processQuery env q
        = Except.ok { processedQuery := q, method := QueryMethod.original }) ∧
    (env.expandAcquire = false → env.rewriteAcquire = false →
      QueryProcessor.processQuery env q
        = Except.ok { processedQuery := q, method := QueryMethod.original }) := by
  refine ⟨?_, ?_, ?_, ?_⟩
  · unfold QueryProcessor.processQuery
    by_cases h5 : q.length < 5
    · exact ⟨_, by rw [if_pos h5]⟩
    · rw [if_neg h5]
      by_cases hen : env.llmEnabled && env.providerAvailable
      · rw [if_pos hen]
        rcases hstep : (if env.expansionEnabled then
            match expandQueryWithLLM env with
            | Except.error _ => none
            | Except.ok none => none
            | Except.ok (some (qs, intent)) =>
              if 0 < qs.length then
                let queries := qs.take env.maxExpandedQueries
                let queries :=
                  if q ∈ queries then queries else queries ++ [q]
                some { processedQuery := queries.headD ""
                       method := QueryMethod.llm
                       expandedQueries := some queries
                       queryIntent := intent }
              else none
          else none : Option QueryProcessingResult) with _ | r
        · simp only [hstep]
          rcases hrw : rewriteWithLLM env q with e | s
          · exact ⟨_, rfl⟩
          · by_cases hcond : s ≠ "" ∧ s ≠ q
            · refine ⟨{ processedQuery := s, method := QueryMethod.llm }, ?_⟩
              show (if s ≠ "" ∧ s ≠ q then _ else _) = Except.ok _
              rw [if_pos hcond]
            · refine ⟨{ processedQuery := q, method := QueryMethod.original }, ?_⟩
              show (if s ≠ "" ∧ s ≠ q then _ else _) = Except.ok _
              rw [if_neg hcond]
        · exact ⟨r, by simp only [hstep]⟩
      · rw [if_neg hen]
        exact ⟨_, rfl⟩
  · intro h5
    unfold QueryProcessor.processQuery
    rw [if_pos h5]
  · intro e₁ e₂ hec hrc hea hra
    unfold QueryProcessor.processQuery
    by_cases h5 : q.length < 5
    · rw [if_pos h5]
    · rw [if_neg h5]
      by_cases hen : env.llmEnabled && env.providerAvailable
      · rw [if_pos hen]
        have hexp : expandQueryWithLLM env = Except.error e₁ := by
          simp [expandQueryWithLLM, hea, hec]
        have hrw : rewriteWithLLM env q = Except.error e₂ := by
          simp [rewriteWithLLM, hra, hrc]
        by_cases hee : env.expansionEnabled
        · simp [hee, hexp, hrw]
        · simp [hee, hrw]
      · rw [if_neg hen]
  · intro hea hra
    unfold QueryProcessor.processQuery
    by_cases h5 : q.length < 5
    · rw [if_pos h5]
    · rw [if_neg h5]
      by_cases hen : env.llmEnabled && env.providerAvailable
      · rw [if_pos hen]
        have hexp : expandQueryWithLLM env = Except.ok none := by
          simp [expandQueryWithLLM, hea]
        have hrw : rewriteWithLLM env q = Except.ok q := by
          simp [rewriteWithLLM, hra]
        have hq : ¬ (q ≠ "" ∧ q ≠ q) := by
          intro h
          exact h.2 rfl
        by_cases hee : env.expansionEnabled
        · simp [hee, hexp, hrw]
        · simp [hee, hrw]
      · rw [if_neg hen]

/-- Witness for `query_processor_never_throws`: with both LLM calls throwing
and both limiter acquisitions granted, a long query comes back unchanged with
method `original`. -/
theorem query_processor_never_throws_witness :
    QueryProcessor.processQuery
        { llmEnabled := true, expansionEnabled := true, maxExpandedQueries := 3,
          providerAvailable := true, expandAcquire := true,
          expandCall := Except.error "queue full", rewriteAcquire := true,
          rewriteCall := Except.error "provider down" } "hello world"
      = Except.ok { processedQuery := "hello world", method := QueryMethod.original } :=
  (query_processor_never_throws
      { llmEnabled := true, expansionEnabled := true, maxExpandedQueries := 3,
        providerAvailable := true, expandAcquire := true,
        expandCall := Except.error "queue full", rewriteAcquire := true,
        rewriteCall := Except.error "provider down" } "hello world").2.2.1
    "queue full" "provider down" rfl rfl rfl rfl

/-- Helper: the loop's emitted events are exactly chunk events. -/
theorem runLLMLoop_chunks :
    ∀ (l : List LLMStreamChunk) (u : Option ChatTokenUsage),
      ∃ deltas : List String,
        (runLLMLoop l u).1 = deltas.map ChatEv.textMessageChunk := by
  intro l
  induction l with
  | nil =>
    intro u
    exact ⟨[], rfl⟩
  | cons c rest ih =>
    intro u
    cases c with
    | content s =>
      by_cases hs : s ≠ ""
      · obtain ⟨ds, hds⟩ := ih u
        exact ⟨s :: ds, by simp [runLLMLoop, hs, hds]⟩
      · obtain ⟨ds, hds⟩ := ih u
        exact ⟨ds, by simp [runLLMLoop, hs, hds]⟩
    | done u' =>
      obtain ⟨ds, hds⟩ := ih u'
      exact ⟨ds, by simp [runLLMLoop, hds]⟩
    | error m =>
      exact ⟨[], by simp [runLLMLoop]⟩

/-- Helper: chunk events are never terminal. -/
theorem countTerminal_chunks (deltas : List String) :
    ((deltas.map ChatEv.textMessageChunk).filter isTerminalEv).length = 0 := by
  induction deltas with
  | nil => simp
  | cons d ds ih => simp [isTerminalEv, ih]

/-- Helper: an optional `knowledge_sources` event is never terminal. -/
theorem filter_terminal_sources (c : Prop) [Decidable c] :
    List.filter isTerminalEv (if c then [ChatEv.customSources] else []) = [] := by
  by_cases hc : c <;> simp [hc, isTerminalEv]

/-- Helper: an optional `token_usage` event is never terminal. -/
theorem filter_terminal_usage (c : Prop) [Decidable c] :
    List.filter isTerminalEv (if c then [ChatEv.customUsage] else []) = [] := by
  by_cases hc : c <;> simp [hc, isTerminalEv]

/-- **C1.** Every emitted stream either matches the full grammar
`RUN_STARTED (CUSTOM_sources)? TEXT_MESSAGE_START TEXT_MESSAGE_CHUNK*
TEXT_MESSAGE_END (CUSTOM_usage)? RUN_FINISHED`, or is a proper prefix of such
a sequence followed by a single `RUN_ERROR`; and it contains exactly one
terminating event (`RUN_FINISHED` or `RUN_ERROR`). -/
theorem chat_stream_event_ordering (env : ChatStreamEnv) :
    ((∃ src deltas usage, emitChatStream env = okChatSeq src deltas usage) ∨
     (∃ src deltas usage p m, p <+: okChatSeq src deltas usage ∧
        emitChatStream env = p ++ [ChatEv.runError m])) ∧
    ((emitChatStream env).filter isTerminalEv).length = 1 := by
  rcases henv : env.searchOutcome with e | chunks
  · have hemit : emitChatStream env = [ChatEv.runStarted, ChatEv.runError e] := by
      simp [emitChatStream, henv]
    constructor
    · right
      refine ⟨false, [], false, [ChatEv.runStarted], e, ?_, by simp [hemit]⟩
      exact ⟨(okChatSeq false [] false).tail, by simp [okChatSeq]⟩
    · simp [hemit, isTerminalEv]
  · obtain ⟨deltas, hdeltas⟩ := runLLMLoop_chunks env.llmChunks none
    set src := env.includeSources ∧ 0 < chunks.length with hsrc
    have hsrcd : Decidable src := by
      rw [hsrc]
      infer_instance
    rcases herr : (runLLMLoop env.llmChunks none).2.2 with _ | m
    · -- no mid-stream error: full grammar
      have hemit : emitChatStream env
          = ChatEv.runStarted ::
              (if src then [ChatEv.customSources] else [])
                ++ [ChatEv.textMessageStart]
                ++ deltas.map ChatEv.textMessageChunk
                ++ [ChatEv.textMessageEnd]
                ++ (if (runLLMLoop env.llmChunks none).2.1.isSome then [ChatEv.customUsage] else [])
                ++ [ChatEv.runFinished] := by
        simp only [emitChatStream, henv, hdeltas, herr]
        simp [List.append_assoc]
      constructor
      · left
        refine ⟨decide src, deltas, (runLLMLoop env.llmChunks none).2.1.isSome, ?_⟩
        rw [hemit, okChatSeq]
        by_cases h : src
        · simp [h]
        · simp [h]
      · rw [hemit]
        simp [isTerminalEv, List.filter_append, countTerminal_chunks,
          filter_terminal_sources, filter_terminal_usage]
    · -- mid-stream error: prefix + RUN_ERROR
      have hemit : emitChatStream env
          = (ChatEv.runStarted ::
              (if src then [ChatEv.customSources] else [])
                ++ [ChatEv.textMessageStart]
                ++ deltas.map ChatEv.textMessageChunk)
              ++ [ChatEv.runError m] := by
        simp only [emitChatStream, henv, hdeltas, herr]
        simp [List.append_assoc]
      constructor
      · right
        refine ⟨decide src, deltas, false,
          ChatEv.runStarted ::
            (if src then [ChatEv.customSources] else [])
              ++ [ChatEv.textMessageStart]
              ++ deltas.map ChatEv.textMessageChunk, m, ?_, hemit⟩
        refine ⟨[ChatEv.textMessageEnd] ++ [ChatEv.runFinished], ?_⟩
        rw [okChatSeq]
        by_cases h : src
        · simp [h]
        · simp [h]
      · rw [hemit]
        simp [isTerminalEv, List.filter_append, countTerminal_chunks,
          filter_terminal_sources, filter_terminal_usage]

/-- Helper: setting a fresh key appends. -/
theorem mapSet_fresh {α : Type} (l : List (String × α)) (k : String) (v : α)
    (h : List.lookup k l = none) : mapSet l k v = l ++ [(k, v)] := by
  simp [mapSet, h]

/-- Helper: `find?` over an append whose first part has no hit. -/
theorem find?_append_none {α : Type} (l₁ l₂ : List α) (p : α → Bool)
    (h : l₁.find? p = none) : (l₁ ++ l₂).find? p = l₂.find? p := by
  induction l₁ with
  | nil => simp
  | cons a as ih =>
    rcases hp : p a with _ | _
    · rw [List.find?_cons_of_neg _ (by simp [hp])] at h
      rw [List.cons_append, List.find?_cons_of_neg _ (by simp [hp])]
      exact ih h
    · rw [List.find?_cons_of_pos _ hp] at h
      cases h

/-- **C2.** Ingesting the same text twice (first call succeeds on a store with
no prior duplicate and a fresh document id): the second call returns the
first call's `document_id` with a duplicate message and `status=indexed`,
leaves the store untouched (no re-index, no overwrite), and the store count
grows by exactly one across the two calls. -/
theorem ingest_text_dedup_idempotent (env₁ env₂ : IngestEnv)
    (store : DocumentStore) (x : DocumentUploadRequest)
    (hsame : env₂.hashFn = env₁.hashFn)
    (hnodup : store.findByContentHash (env₁.hashFn x.content) = none)
    (hfresh : List.lookup env₁.freshId store.documents = none)
    (hok : env₁.indexOutcome = Except.ok ()) :
    (handleUploadDocument env₂ (handleUploadDocument env₁ store x).2 x).1.document_id
        = (handleUploadDocument env₁ store x).1.document_id ∧
    (handleUploadDocument env₂ (handleUploadDocument env₁ store x).2 x).2
        = (handleUploadDocument env₁ store x).2 ∧
    (handleUploadDocument env₁ store x).2.count = store.count + 1 ∧
    (handleUploadDocument env₂ (handleUploadDocument env₁ store x).2 x).2.count
        = store.count + 1 ∧
    (handleUploadDocument env₂ (handleUploadDocument env₁ store x).2 x).1.status
        = DocStatus.indexed ∧
    (handleUploadDocument env₂ (handleUploadDocument env₁ store x).2 x).1.message
        = "Duplicate content detected. Returning existing document (ID: "
            ++ env₁.freshId ++ ", Title: \"" ++ x.title ++ "\")" := by
  have h₁ : handleUploadDocument env₁ store x
      = ({ document_id := env₁.freshId
           status := DocStatus.indexed
           chunks_count := some env₁.totalChunks
           message := "Document indexed successfully with "
             ++ toString env₁.totalChunks ++ " chunks" },
         ⟨store.documents ++
           [(env₁.freshId,
             { document_id := env₁.freshId
               title := x.title
               category := x.category
               description := x.description
               status := DocStatus.indexed
               chunks_count := env₁.totalChunks
               created_at := env₁.createdAt
               updated_at := env₁.now
               media_type := some "text"
               metadata := x.metadata
               content_hash := some (env₁.hashFn x.content) })]⟩) := by
    simp only [handleUploadDocument, hnodup, hok]
    simp only [DocumentStore.upsert, mapSet_fresh store.documents env₁.freshId _ hfresh]
  have hfind₂ : (⟨store.documents ++
      [(env₁.freshId,
        { document_id := env₁.freshId
          title := x.title
          category := x.category
          description := x.description
          status := DocStatus.indexed
          chunks_count := env₁.totalChunks
          created_at := env₁.createdAt
          updated_at := env₁.now
          media_type := some "text"
          metadata := x.metadata
          content_hash := some (env₁.hashFn x.content) })]⟩ :
        DocumentStore).findByContentHash (env₂.hashFn x.content)
      = some
        { document_id := env₁.freshId
          title := x.title
          category := x.category
          description := x.description
          status := DocStatus.indexed
          chunks_count := env₁.totalChunks
          created_at := env₁.createdAt
          updated_at := env₁.now
          media_type := some "text"
          metadata := x.metadata
          content_hash := some (env₁.hashFn x.content) } := by
    rw [hsame]
    simp only [DocumentStore.findByContentHash, List.map_append]
    rw [find?_append_none _ _ _ hnodup]
    simp
  rw [h₁]
  constructor
  · simp only [handleUploadDocument, hfind₂]
  constructor
  · simp only [handleUploadDocument, hfind₂]
  constructor
  · simp [DocumentStore.count]
  constructor
  · simp only [handleUploadDocument, hfind₂]
    simp [DocumentStore.count]
  constructor
  · simp only [handleUploadDocument, hfind₂]
  · simp only [handleUploadDocument, hfind₂]

/-- Witness for `ingest_text_dedup_idempotent` at a concrete ingestion into an
empty store (oracle hash = identity, fresh id `doc_1`). -/
theorem ingest_text_dedup_idempotent_witness :
    (handleUploadDocument ⟨fun s => s, "doc_2", Except.ok (), 1, "t1", "t1"⟩
        (handleUploadDocument ⟨fun s => s, "doc_1", Except.ok (), 1, "t0", "t0"⟩
          ⟨[]⟩ { title := "T", content := "hello" }).2
        { title := "T", content := "hello" }).1.document_id
      = (handleUploadDocument ⟨fun s => s, "doc_1", Except.ok (), 1, "t0", "t0"⟩
          ⟨[]⟩ { title := "T", content := "hello" }).1.document_id ∧
    (handleUploadDocument ⟨fun s => s, "doc_2", Except.ok (), 1, "t1", "t1"⟩
        (handleUploadDocument ⟨fun s => s, "doc_1", Except.ok (), 1, "t0", "t0"⟩
          ⟨[]⟩ { title := "T", content := "hello" }).2
        { title := "T", content := "hello" }).2.count = (⟨[]⟩ : DocumentStore).count + 1 :=
  by
  have h := ingest_text_dedup_idempotent
    ⟨fun s => s, "doc_1", Except.ok (), 1, "t0", "t0"⟩
    ⟨fun s => s, "doc_2", Except.ok (), 1, "t1", "t1"⟩
    ⟨[]⟩ { title := "T", content := "hello" }
    rfl rfl rfl rfl
  exact ⟨h.1, h.2.2.2.1⟩

/-- Helper: the dead replacement branch never fires, because `maxScore` was
raised before the strict comparison. -/
theorem updateRRFEntry_eq_noBranch (e : RRFEntry) (r : SearchResult) (w : ℚ) :
    updateRRFEntry e r w = updateRRFEntryNoBranch e r w := by
  simp only [updateRRFEntry, updateRRFEntryNoBranch]
  rw [if_neg (not_lt.mpr (le_max_right e.maxScore r.score))]

/-- Helper: `lookup` after an in-place replacement of the entries keyed `k`. -/
theorem lookup_replaceAll {α : Type} (m : List (String × α)) (k : String) (v : α)
    (id : String) :
    List.lookup id (m.map (fun p => if p.1 = k then (k, v) else p))
      = if id = k then (List.lookup k m).map (fun _ => v) else List.lookup id m := by
  induction m with
  | nil => by_cases h : id = k <;> simp [h]
  | cons p rest ih =>
    obtain ⟨a, b⟩ := p
    simp only [List.map_cons]
    by_cases hak : a = k
    · rw [if_pos (show (a, b).1 = k from hak)]
      subst hak
      by_cases hik : id = a
      · subst hik
        simp [List.lookup_cons, ih]
      · simp [List.lookup_cons, beq_false_of_ne hik, ih, hik]
    · rw [if_neg (show ¬ (a, b).1 = k from hak)]
      by_cases hia : id = a
      · have hik : ¬ id = k := by
          rw [hia]
          exact hak
        simp [List.lookup_cons, hia, hik, hak]
      · by_cases hik : id = k
        · subst hik
          simp [List.lookup_cons, beq_false_of_ne hia,
            beq_false_of_ne (fun h : id = a => hia h), ih,
            beq_false_of_ne (show ¬ id = a from hia)]
        · simp [List.lookup_cons, beq_false_of_ne hia, hik, ih]

/-- Helper: `lookup` skips an appended tail while the head has the key. -/
theorem lookup_append_of_some {α : Type} (m l : List (String × α)) (id : String)
    (w : α) (h : List.lookup id m = some w) : List.lookup id (m ++ l) = some w := by
  induction m with
  | nil => cases h
  | cons p rest ih =>
    obtain ⟨a, b⟩ := p
    by_cases hia : id = a
    · subst hia
      simp [List.lookup_cons] at h ⊢
      exact h
    · simp only [List.cons_append, List.lookup_cons, beq_false_of_ne hia] at h ⊢
      exact ih h

/-- Helper: `lookup` falls through an appended tail when the head misses. -/
theorem lookup_append_of_none {α : Type} (m l : List (String × α)) (id : String)
    (h : List.lookup id m = none) : List.lookup id (m ++ l) = List.lookup id l := by
  induction m with
  | nil => simp
  | cons p rest ih =>
    obtain ⟨a, b⟩ := p
    by_cases hia : id = a
    · subst hia
      simp [List.lookup_cons] at h
    · simp only [List.cons_append, List.lookup_cons, beq_false_of_ne hia] at h ⊢
      exact ih h

/-- Helper: one map update changes only the touched chunk-ID's scores, by the
RRF/max combination. -/
theorem entryScores_applyRRFResult (m : List (String × RRFEntry)) (r : SearchResult)
    (k : Nat) (id : String) :
    entryScores (applyRRFResult m r k) id
      = if r.id = id then
          combineScores (entryScores m id) (some (1 / (60 + (k : ℚ) + 1), r.score))
        else entryScores m id := by
  rcases hl : List.lookup r.id m with _ | e
  · simp only [applyRRFResult, hl]
    by_cases hid : r.id = id
    · subst hid
      rw [if_pos rfl]
      unfold entryScores
      rw [lookup_append_of_none _ _ _ hl, hl]
      simp [List.lookup_cons, combineScores, initRRFEntry]
    · rw [if_neg hid]
      unfold entryScores
      rcases hl2 : List.lookup id m with _ | w
      · rw [lookup_append_of_none _ _ _ hl2]
        simp [List.lookup_cons, beq_false_of_ne (fun h : id = r.id => hid h.symm)]
      · rw [lookup_append_of_some _ _ _ _ hl2]
  · simp only [applyRRFResult, hl, mapSet]
    rw [if_pos (show (some e : Option RRFEntry).isSome = true from rfl)]
    by_cases hid : id = r.id
    · subst hid
      rw [if_pos rfl]
      unfold entryScores
      rw [lookup_replaceAll, if_pos rfl, hl]
      simp [combineScores, updateRRFEntry_eq_noBranch, updateRRFEntryNoBranch]
    · rw [if_neg (fun h : r.id = id => hid h.symm)]
      unfold entryScores
      rw [lookup_replaceAll, if_neg hid]

/-- Helper: `combineScores` is associative. -/
theorem combineScores_assoc (x y z : Option (ℚ × ℚ)) :
    combineScores (combineScores x y) z = combineScores x (combineScores y z) := by
  rcases x with _ | ⟨x1, x2⟩ <;> rcases y with _ | ⟨y1, y2⟩ <;> rcases z with _ | ⟨z1, z2⟩ <;>
    simp [combineScores, add_assoc, max_assoc]

/-- Helper: `combineScores` is commutative. -/
theorem combineScores_comm (x y : Option (ℚ × ℚ)) :
    combineScores x y = combineScores y x := by
  rcases x with _ | ⟨x1, x2⟩ <;> rcases y with _ | ⟨y1, y2⟩ <;>
    simp [combineScores, add_comm, max_comm]

/-- Helper: the enumerated `forEach` equals the rank-indexed recursion. -/
theorem applyRRFVariant_eq_from (results : List SearchResult) :
    ∀ (m : List (String × RRFEntry)) (k : Nat),
      (List.enumFrom k results).foldl (fun acc p => applyRRFResult acc p.2 p.1) m
        = applyRRFVariantFrom m results k := by
  induction results with
  | nil =>
    intro m k
    rfl
  | cons r rs ih =>
    intro m k
    simp only [List.enumFrom, List.foldl_cons, applyRRFVariantFrom]
    exact ih (applyRRFResult m r k) (k + 1)

/-- Helper: `applyRRFVariant` is the rank-indexed recursion started at 0. -/
theorem applyRRFVariant_eq (m : List (String × RRFEntry)) (results : List SearchResult) :
    applyRRFVariant m results = applyRRFVariantFrom m results 0 := by
  simp only [applyRRFVariant, List.enum]
  exact applyRRFVariant_eq_from results m 0

/-- Helper: a variant pass combines the old scores with the variant's
contribution. -/
theorem entryScores_applyRRFVariantFrom (id : String) :
    ∀ (results : List SearchResult) (m : List (String × RRFEntry)) (k : Nat),
      entryScores (applyRRFVariantFrom m results k) id
        = combineScores (entryScores m id) (variantScoresFrom id results k) := by
  intro results
  induction results with
  | nil =>
    intro m k
    simp [applyRRFVariantFrom, variantScoresFrom, combineScores]
  | cons r rs ih =>
    intro m k
    simp only [applyRRFVariantFrom, variantScoresFrom]
    rw [ih (applyRRFResult m r k) (k + 1), entryScores_applyRRFResult]
    by_cases hid : r.id = id
    · rw [if_pos hid, if_pos hid, combineScores_assoc]
    · rw [if_neg hid, if_neg hid]

/-- Helper: the fuse of all variant lists folds the per-variant
contributions. -/
theorem entryScores_rrfFuse_foldl (id : String) :
    ∀ (lists : List (List SearchResult)) (m : List (String × RRFEntry)),
      entryScores (lists.foldl applyRRFVariant m) id
        = lists.foldl (fun x l => combineScores x (variantScoresFrom id l 0))
            (entryScores m id) := by
  intro lists
  induction lists with
  | nil =>
    intro m
    rfl
  | cons l ls ih =>
    intro m
    simp only [List.foldl_cons]
    rw [ih (applyRRFVariant m l), applyRRFVariant_eq,
      entryScores_applyRRFVariantFrom]

/-- Helper: the contribution fold is invariant under permuting the variant
lists. -/
theorem foldl_combineScores_perm (id : String)
    {lists lists' : List (List SearchResult)} (hperm : lists.Perm lists') :
    ∀ (x : Option (ℚ × ℚ)),
      lists.foldl (fun a l => combineScores a (variantScoresFrom id l 0)) x
        = lists'.foldl (fun a l => combineScores a (variantScoresFrom id l 0)) x := by
  induction hperm with
  | nil =>
    intro x
    rfl
  | cons a p ih =>
    intro x
    simp only [List.foldl_cons]
    exact ih _
  | swap a b l =>
    intro x
    simp only [List.foldl_cons]
    rw [combineScores_assoc, combineScores_assoc,
      combineScores_comm (variantScoresFrom id b 0) (variantScoresFrom id a 0)]
  | trans p1 p2 ih1 ih2 =>
    intro x
    rw [ih1, ih2]

/-- **C4 (amended).** Multi-query RRF fusion: a result at 0-based rank `r` of
a variant list contributes `1/(60 + r + 1)` to its chunk-ID's accumulated RRF
score and its semantic score to the running max (the `combineScores` fold);
the per-chunk-ID accumulated scores are independent of the enumeration order
of the variant lists; and candidates are emitted sorted by accumulated RRF
score descending.  Ties, however, retain first-insertion order, so the
*ordering* of tied candidates can depend on the variant enumeration order —
there is no max-score or chunk-id tie-break (see the counterexample). -/
theorem rrf_fusion_amended (lists lists' : List (List SearchResult)) (id : String)
    (hperm : lists.Perm lists') :
    entryScores (rrfFuse lists) id = entryScores (rrfFuse lists') id ∧
    entryScores (rrfFuse lists) id
      = lists.foldl (fun x l => combineScores x (variantScoresFrom id l 0)) none ∧
    List.Sorted (fun a b => b.rrfScore ≤ a.rrfScore)
      (sortRRFDesc ((rrfFuse lists).map Prod.snd)) := by
  refine ⟨?_, ?_, ?_⟩
  · rw [rrfFuse, rrfFuse, entryScores_rrfFuse_foldl, entryScores_rrfFuse_foldl]
    exact foldl_combineScores_perm id hperm _
  · rw [rrfFuse, entryScores_rrfFuse_foldl]
    rfl
  · unfold sortRRFDesc
    exact List.sorted_insertionSort (fun a b : RRFEntry => b.rrfScore ≤ a.rrfScore) _

/-- **C4 counterexample.** Two variants returning single (distinct) results
with equal scores: fusing `[[A], [B]]` yields the tied entries in order
`a, b`, fusing `[[B], [A]]` yields `b, a` — the fused ordering depends on the
variant enumeration order, and no max-score/chunk-id tie-break exists (it
would have ordered both as `a, b`). -/
theorem rrf_order_dependence_counterexample :
    multiQuerySearch [[rrfResA], [rrfResB]] 4
      ≠ multiQuerySearch [[rrfResB], [rrfResA]] 4 := by
  have hAB : multiQuerySearch [[rrfResA], [rrfResB]] 4
      = [{ id := "a", score := 1, text := "ta", metadata := none },
         { id := "b", score := 1, text := "tb", metadata := none }] := by
    norm_num [multiQuerySearch, rrfFuse, applyRRFVariant, List.enum, List.enumFrom,
      applyRRFResult, initRRFEntry, rrfResA, rrfResB, sortRRFDesc,
      List.insertionSort, List.orderedInsert, mapSet, List.lookup_cons]
  have hBA : multiQuerySearch [[rrfResB], [rrfResA]] 4
      = [{ id := "b", score := 1, text := "tb", metadata := none },
         { id := "a", score := 1, text := "ta", metadata := none }] := by
    norm_num [multiQuerySearch, rrfFuse, applyRRFVariant, List.enum, List.enumFrom,
      applyRRFResult, initRRFEntry, rrfResA, rrfResB, sortRRFDesc,
      List.insertionSort, List.orderedInsert, mapSet, List.lookup_cons]
  rw [hAB, hBA]
  intro h
  simp at h

/-- Witness for `rrf_fusion_amended` at the two-variant swap permutation. -/
theorem rrf_fusion_amended_witness :
    entryScores (rrfFuse [[rrfResA], [rrfResB]]) "a"
        = entryScores (rrfFuse [[rrfResB], [rrfResA]]) "a" ∧
    entryScores (rrfFuse [[rrfResA], [rrfResB]]) "a"
      = [[rrfResA], [rrfResB]].foldl
          (fun x l => combineScores x (variantScoresFrom "a" l 0)) none ∧
    List.Sorted (fun a b => b.rrfScore ≤ a.rrfScore)
      (sortRRFDesc ((rrfFuse [[rrfResA], [rrfResB]]).map Prod.snd)) :=
  rrf_fusion_amended [[rrfResA], [rrfResB]] [[rrfResB], [rrfResA]] "a"
    (List.Perm.swap [rrfResB] [rrfResA] [])

/-- Helper: `find?` distributes over append via `orElse`. -/
theorem find?_append_orElse {α : Type} (l₁ l₂ : List α) (p : α → Bool) :
    (l₁ ++ l₂).find? p = (l₁.find? p).orElse (fun _ => l₂.find? p) := by
  induction l₁ with
  | nil => simp
  | cons a as ih =>
    by_cases hp : p a = true
    · simp [List.find?_cons_of_pos _ hp]
    · rw [List.cons_append, List.find?_cons_of_neg _ (by simpa using hp),
        List.find?_cons_of_neg _ (by simpa using hp), ih]

/-- Helper: `orElse` on `Option` is associative. -/
theorem option_orElse_assoc {α : Type} (x : Option α) (f g : Unit → Option α) :
    (x.orElse f).orElse g = x.orElse (fun u => (f u).orElse g) := by
  rcases x <;> rfl

/-- Helper: `Option.map` distributes over `orElse`. -/
theorem option_map_orElse {α β : Type} (x y : Option α) (f : α → β) :
    (x.map f).orElse (fun _ => y.map f) = (x.orElse (fun _ => y)).map f := by
  rcases x <;> rfl

/-- Helper: one map update initializes `(text, metadata)` on first sight of a
chunk-ID and never changes it afterwards. -/
theorem entryTextMeta_applyRRFResult (m : List (String × RRFEntry))
    (r : SearchResult) (k : Nat) (id : String) :
    entryTextMeta (applyRRFResult m r k) id
      = if r.id = id ∧ List.lookup id m = none then some (r.text, r.metadata)
        else entryTextMeta m id := by
  rcases hl : List.lookup r.id m with _ | e
  · simp only [applyRRFResult, hl]
    by_cases hid : r.id = id
    · subst hid
      rw [if_pos ⟨rfl, hl⟩]
      unfold entryTextMeta
      rw [lookup_append_of_none _ _ _ hl]
      simp [List.lookup_cons, initRRFEntry]
    · rw [if_neg (fun hc => hid hc.1)]
      unfold entryTextMeta
      rcases hl2 : List.lookup id m with _ | w
      · rw [lookup_append_of_none _ _ _ hl2]
        simp [List.lookup_cons, beq_false_of_ne (fun h : id = r.id => hid h.symm)]
      · rw [lookup_append_of_some _ _ _ _ hl2]
  · simp only [applyRRFResult, hl, mapSet]
    rw [if_pos (show (some e : Option RRFEntry).isSome = true from rfl)]
    by_cases hid : id = r.id
    · subst hid
      rw [if_neg (fun hc => by rw [hl] at hc; cases hc.2)]
      unfold entryTextMeta
      rw [lookup_replaceAll, if_pos rfl, hl]
      simp [updateRRFEntry_eq_noBranch, updateRRFEntryNoBranch]
    · rw [if_neg (fun hc => hid hc.1.symm)]
      unfold entryTextMeta
      rw [lookup_replaceAll, if_neg hid]

/-- Helper: a variant pass fills missing `(text, metadata)` with the first
matching occurrence and keeps existing ones. -/
theorem entryTextMeta_applyRRFVariantFrom (id : String) :
    ∀ (results : List SearchResult) (m : List (String × RRFEntry)) (k : Nat),
      entryTextMeta (applyRRFVariantFrom m results k) id
        = (entryTextMeta m id).orElse
            (fun _ => (results.find? (fun r => r.id == id)).map
              (fun r => (r.text, r.metadata))) := by
  intro results
  induction results with
  | nil =>
    intro m k
    simp only [applyRRFVariantFrom, List.find?_nil, Option.map_none']
    rcases entryTextMeta m id <;> rfl
  | cons r rs ih =>
    intro m k
    simp only [applyRRFVariantFrom]
    rw [ih (applyRRFResult m r k) (k + 1), entryTextMeta_applyRRFResult]
    rcases hl2 : List.lookup id m with _ | w
    · by_cases hid : r.id = id
      · rw [if_pos ⟨hid, rfl⟩]
        have hTM : entryTextMeta m id = none := by
          simp [entryTextMeta, hl2]
        rw [hTM]
        have hfind : List.find? (fun x => x.id == id) (r :: rs) = some r :=
          List.find?_cons_of_pos _ (by simp [hid])
        simp only [hfind]
        rfl
      · rw [if_neg (fun hc => hid hc.1)]
        have hfind : List.find? (fun x => x.id == id) (r :: rs)
            = List.find? (fun x => x.id == id) rs :=
          List.find?_cons_of_neg _ (by simp [hid])
        simp only [hfind]
    · rw [if_neg (fun hc => Option.noConfusion hc.2)]
      have hTM : entryTextMeta m id = some (w.text, w.metadata) := by
        simp [entryTextMeta, hl2]
      rw [hTM]
      rfl

/-- Helper: the fused map's `(text, metadata)` for a chunk-ID come from the
first occurrence of that ID in processing order. -/
theorem entryTextMeta_rrfFuse (id : String) :
    ∀ (lists : List (List SearchResult)) (m : List (String × RRFEntry)),
      entryTextMeta (lists.foldl applyRRFVariant m) id
        = (entryTextMeta m id).orElse
            (fun _ => (lists.flatten.find? (fun r => r.id == id)).map
              (fun r => (r.text, r.metadata))) := by
  intro lists
  induction lists with
  | nil =>
    intro m
    simp only [List.foldl_nil, List.flatten_nil, List.find?_nil, Option.map_none']
    rcases entryTextMeta m id <;> rfl
  | cons l ls ih =>
    intro m
    simp only [List.foldl_cons, List.flatten_cons]
    rw [ih (applyRRFVariant m l), applyRRFVariant_eq,
      entryTextMeta_applyRRFVariantFrom, option_orElse_assoc]
    simp only [find?_append_orElse, option_map_orElse]

/-- Helper: one map update folds the new occurrence's score into the max. -/
theorem entryMax_applyRRFResult (m : List (String × RRFEntry)) (r : SearchResult)
    (k : Nat) (id : String) :
    entryMax (applyRRFResult m r k) id
      = if r.id = id then maxStep (entryMax m id) r.score else entryMax m id := by
  rcases hl : List.lookup r.id m with _ | e
  · simp only [applyRRFResult, hl]
    by_cases hid : r.id = id
    · subst hid
      rw [if_pos rfl]
      unfold entryMax
      rw [lookup_append_of_none _ _ _ hl, hl]
      simp [List.lookup_cons, initRRFEntry, maxStep]
    · rw [if_neg hid]
      unfold entryMax
      rcases hl2 : List.lookup id m with _ | w
      · rw [lookup_append_of_none _ _ _ hl2]
        simp [List.lookup_cons, beq_false_of_ne (fun h : id = r.id => hid h.symm)]
      · rw [lookup_append_of_some _ _ _ _ hl2]
  · simp only [applyRRFResult, hl, mapSet]
    rw [if_pos (show (some e : Option RRFEntry).isSome = true from rfl)]
    by_cases hid : id = r.id
    · subst hid
      rw [if_pos rfl]
      unfold entryMax
      rw [lookup_replaceAll, if_pos rfl, hl]
      simp [updateRRFEntry_eq_noBranch, updateRRFEntryNoBranch, maxStep]
    · rw [if_neg (fun h : r.id = id => hid h.symm)]
      unfold entryMax
      rw [lookup_replaceAll, if_neg hid]

/-- Helper: a variant pass folds its occurrences' scores into the running
max. -/
theorem entryMax_applyRRFVariantFrom (id : String) :
    ∀ (results : List SearchResult) (m : List (String × RRFEntry)) (k : Nat),
      entryMax (applyRRFVariantFrom m results k) id
        = ((results.filter (fun r => r.id == id)).map (fun r => r.score)).foldl
            maxStep (entryMax m id) := by
  intro results
  induction results with
  | nil =>
    intro m k
    rfl
  | cons r rs ih =>
    intro m k
    simp only [applyRRFVariantFrom]
    rw [ih (applyRRFResult m r k) (k + 1), entryMax_applyRRFResult]
    by_cases hid : r.id = id
    · rw [if_pos hid, List.filter_cons_of_pos (by simp [hid])]
      simp
    · rw [if_neg hid, List.filter_cons_of_neg (by simp [hid])]

/-- Helper: the fused map's `maxScore` for a chunk-ID is the max-fold over all
its occurrence scores, across all variants. -/
theorem entryMax_rrfFuse (id : String) :
    ∀ (lists : List (List SearchResult)) (m : List (String × RRFEntry)),
      entryMax (lists.foldl applyRRFVariant m) id
        = (occurrenceScores lists id).foldl maxStep (entryMax m id) := by
  intro lists
  induction lists with
  | nil =>
    intro m
    rfl
  | cons l ls ih =>
    intro m
    simp only [List.foldl_cons, occurrenceScores, List.map_cons, List.flatten_cons]
    rw [List.foldl_append, ih (applyRRFVariant m l), applyRRFVariant_eq,
      entryMax_applyRRFVariantFrom]
    rfl

/-- **C9.** In multi-query fusion: the replacement branch guarded by
`result.score > existing.maxScore` is unreachable (the guard reads the
just-raised max, so the faithful update equals the branch-free one); a fused
entry's `text` and `metadata` are those of the *first* occurrence of its
chunk-ID in processing order; and its `maxScore` — which `multiQuerySearch`
returns as the `score` — is the max-fold of all occurrence scores across the
variants. -/
theorem rrf_first_variant_metadata (lists : List (List SearchResult)) (id : String) :
    (∀ (e : RRFEntry) (r : SearchResult) (w : ℚ),
      updateRRFEntry e r w = updateRRFEntryNoBranch e r w) ∧
    entryTextMeta (rrfFuse lists) id
      = (lists.flatten.find? (fun r => r.id == id)).map (fun r => (r.text, r.metadata)) ∧
    entryMax (rrfFuse lists) id
      = (occurrenceScores lists id).foldl maxStep none ∧
    multiQuerySearch lists
      = fun limit => ((sortRRFDesc ((rrfFuse lists).map Prod.snd)).take limit).map
          (fun e => { id := e.id, score := e.maxScore, text := e.text,
                      metadata := e.metadata }) := by
  refine ⟨updateRRFEntry_eq_noBranch, ?_, ?_, rfl⟩
  · rw [rrfFuse, entryTextMeta_rrfFuse]
    rfl
  · rw [rrfFuse, entryMax_rrfFuse]
    rfl

end Knowledgebase

